import Mathlib

/-!
Verification of the vdsm LVM cache and command engine
(`lib/vdsm/storage/lvm.py`) against its natural-language specification.

The Python module is shallowly embedded: pure helpers become Lean
functions on `String` / `List Char`, the in-process cache becomes an
explicit state record, and every external effect (running an LVM
command, reading multipath devices) is an oracle parameter supplied by
the environment.  Numeric LVM fields are kept as the strings the `pvs`
/ `vgs` / `lvs` commands emit, exactly as the Python code keeps them,
and are converted with an explicit `int(...)` model where the code
converts them.
-/

/-! ### Python string primitives

The Python code splits command output on a separator character,
strips whitespace, and compares/sorts strings by code point.  These
primitives are modelled on `List Char` so that every concrete instance
evaluates inside the kernel.
-/

/-- Python `s.split(sep)` for a one-character separator: split on every
occurrence, keeping empty fields (`"".split("|") == [""]`). -/
def pySplit (sep : Char) : List Char → List (List Char)
  | [] => [[]]
  | c :: rest =>
    let r := pySplit sep rest
    if c = sep then [] :: r
    else
      match r with
      | f :: fs => (c :: f) :: fs
      | [] => [[c]]

/-- Whitespace characters removed by Python `str.strip()` (the subset
that can occur in LVM command output). -/
def pySpace (c : Char) : Bool :=
  c = ' ' || c = '\t' || c = '\n' || c = '\r'

/-- Python `s.strip()`: drop leading and trailing whitespace. -/
def pyStrip (s : List Char) : List Char :=
  ((s.dropWhile pySpace).reverse.dropWhile pySpace).reverse

/-- `s.strip()` on a `String`. -/
def pyStripStr (s : String) : String :=
  String.mk (pyStrip s.data)

/-- Python `d.replace("\x", "\\x")`: double the backslash of every
literal `\x` occurrence, scanning left to right without overlap. -/
def escapeChars : List Char → List Char
  | '\\' :: 'x' :: rest => '\\' :: '\\' :: 'x' :: escapeChars rest
  | c :: rest => c :: escapeChars rest
  | [] => []

/-- `d.replace("\x", "\\x")` on a `String`. -/
def escapeStr (s : String) : String :=
  String.mk (escapeChars s.data)

/-- Python string `<=`: lexicographic comparison by code point. -/
def lexLe : List Char → List Char → Bool
  | [], _ => true
  | _ :: _, [] => false
  | a :: as, b :: bs =>
    if a.toNat < b.toNat then true
    else if b.toNat < a.toNat then false
    else lexLe as bs

/-- The ordering Python `sorted` uses on strings. -/
def pyLe (a b : String) : Prop :=
  lexLe a.data b.data = true

instance : DecidableRel pyLe := fun a b => by
  unfold pyLe; infer_instance

theorem lexLe_total : ∀ as bs : List Char, lexLe as bs = true ∨ lexLe bs as = true := by
  intro as
  induction as with
  | nil => intro bs; left; rfl
  | cons a as ih =>
    intro bs
    cases bs with
    | nil => right; rfl
    | cons b bs =>
      by_cases hab : a.toNat < b.toNat
      · left; simp [lexLe, hab]
      · by_cases hba : b.toNat < a.toNat
        · right; simp [lexLe, hba]
        · rcases ih bs with h | h
          · left; simp [lexLe, hab, hba, h]
          · right; simp [lexLe, hab, hba, h]

theorem lexLe_trans : ∀ as bs cs : List Char,
    lexLe as bs = true → lexLe bs cs = true → lexLe as cs = true := by
  intro as
  induction as with
  | nil => intro bs cs _ _; rfl
  | cons a as ih =>
    intro bs cs h₁ h₂
    cases bs with
    | nil => simp [lexLe] at h₁
    | cons b bs =>
      cases cs with
      | nil => simp [lexLe] at h₂
      | cons c cs =>
        simp only [lexLe] at h₁ h₂ ⊢
        by_cases hab : a.toNat < b.toNat
        · by_cases hbc : b.toNat < c.toNat
          · simp [show a.toNat < c.toNat by omega]
          · by_cases hcb : c.toNat < b.toNat
            · simp [hbc, hcb] at h₂
            · simp [show a.toNat < c.toNat by omega]
        · by_cases hba : b.toNat < a.toNat
          · simp [hab, hba] at h₁
          · by_cases hbc : b.toNat < c.toNat
            · simp [show a.toNat < c.toNat by omega]
            · by_cases hcb : c.toNat < b.toNat
              · simp [hbc, hcb] at h₂
              · have hac : ¬ a.toNat < c.toNat := by omega
                have hca : ¬ c.toNat < a.toNat := by omega
                simp only [hab, hba, if_false, if_neg hab, if_neg hba] at h₁
                simp only [if_neg hbc, if_neg hcb] at h₂
                simp [hac, hca, ih bs cs h₁ h₂]

theorem char_toNat_inj {a b : Char} (h : a.toNat = b.toNat) : a = b :=
  Char.ext (UInt32.toNat.inj h)

theorem lexLe_antisymm : ∀ as bs : List Char,
    lexLe as bs = true → lexLe bs as = true → as = bs := by
  intro as
  induction as with
  | nil =>
    intro bs _ h₂
    cases bs with
    | nil => rfl
    | cons b bs => simp [lexLe] at h₂
  | cons a as ih =>
    intro bs h₁ h₂
    cases bs with
    | nil => simp [lexLe] at h₁
    | cons b bs =>
      simp only [lexLe] at h₁ h₂
      by_cases hab : a.toNat < b.toNat
      · simp [show ¬ b.toNat < a.toNat by omega, show b.toNat ≠ a.toNat from by omega] at h₂
        omega
      · by_cases hba : b.toNat < a.toNat
        · simp [hab, hba] at h₁
        · have : a = b := char_toNat_inj (by omega)
          subst this
          simp only [if_neg hab, if_neg hba] at h₁ h₂
          rw [ih bs h₁ h₂]

instance : IsTotal String pyLe :=
  ⟨fun a b => lexLe_total a.data b.data⟩

instance : IsTrans String pyLe :=
  ⟨fun a b c h₁ h₂ => lexLe_trans a.data b.data c.data h₁ h₂⟩

instance : IsAntisymm String pyLe :=
  ⟨fun a b h₁ h₂ => by
    have := lexLe_antisymm a.data b.data h₁ h₂
    cases a; cases b; simp_all⟩

/-! ### Filter builder (`_buildFilter`, lvm.py lines 265-278)

`USER_DEV_LIST` comes from host configuration
(`config.get("irs", "lvm_dev_whitelist").split(",")`), so it is a
parameter here.  Python's `set(...)` followed by `sorted(...)` is
modelled as `dedup` followed by insertion sort under the code-point
order `pyLe`; any correct sort agrees with Python's `sorted` on a
linear order.
-/

/-- Second half of `_buildFilter`: given the already stripped,
deduplicated, empty-free device set, render the filter string. -/
def renderFilter (devs : List String) : String :=
  if devs.isEmpty then
    "[" ++ "\"r|.*|\"]"
  else
    let sortedDevs := List.insertionSort pyLe (devs.map escapeStr)
    let pattern := String.intercalate "|" (sortedDevs.map (fun d => "^" ++ d ++ "$"))
    let accept := "\"a|" ++ pattern ++ "|\", "
    "[" ++ accept ++ "\"r|.*|\"]"

/-- `_buildFilter(devices)`: strip every device of the multipath list
and the user allowlist, drop empty strings and duplicates, and render
the accept/reject filter (reject-all when no device remains). -/
def buildFilter (devices userDevList : List String) : String :=
  renderFilter ((((devices ++ userDevList).map pyStripStr).dedup).filter (fun d => d ≠ ""))

theorem renderFilter_perm {l₁ l₂ : List String} (h : List.Perm l₁ l₂) :
    renderFilter l₁ = renderFilter l₂ := by
  have hempty : l₁.isEmpty = l₂.isEmpty := by
    cases l₁ with
    | nil =>
      have h2 : l₂ = [] := h.symm.eq_nil
      simp [h2]
    | cons a as =>
      cases l₂ with
      | nil => exact absurd h.eq_nil (by simp)
      | cons b bs => rfl
  unfold renderFilter
  by_cases he : l₁.isEmpty
  · rw [he, ← hempty, he]
    rfl
  · rw [if_neg he, if_neg (hempty ▸ he)]
    have hsorteq : List.insertionSort pyLe (l₁.map escapeStr) =
        List.insertionSort pyLe (l₂.map escapeStr) :=
      List.eq_of_perm_of_sorted
        ((List.perm_insertionSort pyLe _).trans
          ((h.map escapeStr).trans (List.perm_insertionSort pyLe _).symm))
        (List.sorted_insertionSort pyLe _)
        (List.sorted_insertionSort pyLe _)
    rw [hsorteq]

theorem buildFilter_perm_input (d₁ d₂ u : List String) (h : d₁.toFinset = d₂.toFinset) :
    buildFilter d₁ u = buildFilter d₂ u := by
  have hmem : ∀ x, x ∈ d₁ ↔ x ∈ d₂ := by
    intro x
    rw [← List.mem_toFinset, ← List.mem_toFinset, h]
  have hfin : ((d₁ ++ u).map pyStripStr).toFinset = ((d₂ ++ u).map pyStripStr).toFinset := by
    apply Finset.ext
    intro x
    simp only [List.mem_toFinset, List.mem_map, List.mem_append]
    constructor
    · rintro ⟨y, hy | hy, rfl⟩
      · exact ⟨y, Or.inl ((hmem y).mp hy), rfl⟩
      · exact ⟨y, Or.inr hy, rfl⟩
    · rintro ⟨y, hy | hy, rfl⟩
      · exact ⟨y, Or.inl ((hmem y).mpr hy), rfl⟩
      · exact ⟨y, Or.inr hy, rfl⟩
  have hperm : List.Perm (((d₁ ++ u).map pyStripStr).dedup) (((d₂ ++ u).map pyStripStr).dedup) :=
    List.toFinset_eq_iff_perm_dedup.mp hfin
  exact renderFilter_perm (hperm.filter _)

/-- C5: the filter builder drops empties, deduplicates, sorts, escapes
`\x`, and emits the accept/reject pair; output depends only on the set
of devices.  The Python code renders the two-element filter list as the
single string `["a|^d1$|…|", "r|.*|"]`, which is what `buildFilter`
returns. -/
theorem c5_build_filter (d₁ d₂ u : List String) (h : d₁.toFinset = d₂.toFinset) :
    buildFilter d₁ u = buildFilter d₂ u
    ∧ buildFilter ["/dev/mapper/a", "/dev/mapper/b"] []
        = "[\"a|^/dev/mapper/a$|^/dev/mapper/b$|\", \"r|.*|\"]"
    ∧ buildFilter ["/dev/mapper/b", "/dev/mapper/a"] []
        = "[\"a|^/dev/mapper/a$|^/dev/mapper/b$|\", \"r|.*|\"]"
    ∧ buildFilter [] [] = "[\"r|.*|\"]"
    ∧ buildFilter ["/dev/a\\xb"] [] = "[\"a|^/dev/a\\\\xb$|\", \"r|.*|\"]"
    ∧ buildFilter ["/dev/mapper/a", "", "/dev/mapper/a"] [] = buildFilter ["/dev/mapper/a"] [] := by
  refine ⟨buildFilter_perm_input d₁ d₂ u h, ?_, ?_, ?_, ?_, ?_⟩
  · decide
  · decide
  · decide
  · decide
  · decide

/-- Witness for C5 at concrete inputs: two orderings of the same device
set produce the same filter string. -/
theorem c5_build_filter_witness :
    buildFilter ["/dev/mapper/b", "/dev/mapper/a"] ["/dev/x"]
      = buildFilter ["/dev/mapper/a", "/dev/mapper/b"] ["/dev/x"] :=
  (c5_build_filter ["/dev/mapper/b", "/dev/mapper/a"] ["/dev/mapper/a", "/dev/mapper/b"]
    ["/dev/x"] (by decide)).1

/-! ### Data model (lvm.py lines 66-199)

`PV`/`VG`/`LV` keep every field as the string emitted by the LVM
command, exactly as the Python namedtuples do.  The six/eight
character `attr` strings are stored as the sliced character list
(`tuple(sAttr[:len(...)])`); derived fields (`guid`, `writeable`,
`opened`, `active`, the partial state) are computed in `fromlvm` as in
the source.  The `partial` property is called `part_state` here
because `partial` is a reserved word in Lean.
-/

def UNKNOWN : String := "[unknown]"

def PV_FIELDS_LEN : Nat := 11

def VG_FIELDS_LEN : Nat := 14

def LV_FIELDS_LEN : Nat := 8

def VG_OK : String := "OK"

def VG_PARTIAL : String := "PARTIAL"

/-- Split an output line on `SEPARATOR = "|"` and strip every field
(`[field.strip() for field in line.split(SEPARATOR)]`). -/
def pyFields (line : String) : List String :=
  (pySplit '|' line.data).map (fun f => String.mk (pyStrip f))

/-- `_tags2Tuple`: comma-split a tag string; empty string gives the
empty tuple. -/
def tags2Tuple (sTags : String) : List String :=
  if sTags = "" then [] else (pySplit ',' sTags.data).map String.mk

/-- Python `os.path.basename`: the part after the last slash. -/
def pyBasename (s : String) : String :=
  String.mk ((s.data.reverse.takeWhile (fun c => c ≠ '/')).reverse)

structure PV where
  uuid : String
  name : String
  size : String
  vg_name : String
  vg_uuid : String
  pe_start : String
  pe_count : String
  pe_alloc_count : String
  mda_count : String
  dev_size : String
  mda_used_count : String
  guid : String
deriving DecidableEq

/-- `PV.fromlvm`: build a PV from one `pvs` output row, adding
`guid = basename(name)`. -/
def PV.fromlvm (uuid name size vg_name vg_uuid pe_start pe_count pe_alloc_count
    mda_count dev_size mda_used_count : String) : PV :=
  { uuid, name, size, vg_name, vg_uuid, pe_start, pe_count, pe_alloc_count,
    mda_count, dev_size, mda_used_count, guid := pyBasename name }

structure VG where
  uuid : String
  name : String
  attr : List Char
  size : String
  free : String
  extent_size : String
  extent_count : String
  free_count : String
  tags : List String
  vg_mda_size : String
  vg_mda_free : String
  lv_count : String
  pv_count : String
  pv_name : List String
  writeable : Bool
  part_state : String
deriving DecidableEq

/-- `VG.fromlvm`: build a VG from the 13 leading fields of a `vgs` row
plus the collapsed `pv_name` list.  `attr` is the first six characters
of the attribute string; `writeable ⇔ permission == 'w'` (bit 0) and
the partial state comes from bit 3. -/
def VG.fromlvm (fields : List String) (pvNames : List String) : VG :=
  let attr := (fields.getD 2 "").data.take 6
  { uuid := fields.getD 0 "", name := fields.getD 1 "", attr,
    size := fields.getD 3 "", free := fields.getD 4 "",
    extent_size := fields.getD 5 "", extent_count := fields.getD 6 "",
    free_count := fields.getD 7 "", tags := tags2Tuple (fields.getD 8 ""),
    vg_mda_size := fields.getD 9 "", vg_mda_free := fields.getD 10 "",
    lv_count := fields.getD 11 "", pv_count := fields.getD 12 "",
    pv_name := pvNames,
    writeable := attr.getD 0 ' ' == 'w',
    part_state := if attr.getD 3 ' ' == '-' then VG_OK else VG_PARTIAL }

structure LV where
  uuid : String
  name : String
  vg_name : String
  attr : List Char
  size : String
  seg_start_pe : String
  devices : String
  tags : List String
  writeable : Bool
  opened : Bool
  active : Bool
deriving DecidableEq

/-- `LV.fromlvm`: build an LV from one `lvs` output row.  `attr` is the
first eight characters of the attribute string; `writeable` is bit 1
(`permission`), `opened` bit 5 (`devopen`), `active` bit 4 (`state`). -/
def LV.fromlvm (uuid name vg_name attrStr size seg_start_pe devices tagsStr : String) : LV :=
  let attr := attrStr.data.take 8
  { uuid, name, vg_name, attr, size, seg_start_pe, devices,
    tags := tags2Tuple tagsStr,
    writeable := attr.getD 1 ' ' == 'w',
    opened := attr.getD 5 ' ' == 'o',
    active := attr.getD 4 ' ' == 'a' }

/-- A cache slot: `Fresh(record) | Stale(name) | Unreadable(name)`. -/
inductive Entry (α : Type) where
  | fresh (record : α)
  | stale (name : String)
  | unreadable (name : String)
deriving DecidableEq

def Entry.is_stale {α : Type} : Entry α → Bool
  | .fresh _ => false
  | .stale _ => true
  | .unreadable _ => true

/-- The `name` attribute of a cache entry (`Stale` and `Unreadable`
carry the name; for a record it is read off with the projection). -/
def Entry.nameOf {α : Type} (f : α → String) : Entry α → String
  | .fresh r => f r
  | .stale n => n
  | .unreadable n => n

/-! ### Association-list maps

The Python dicts `_pvs`, `_vgs`, `_lvs` are modelled as insertion
ordered association lists; `mset` replaces in place like a dict
assignment, preserving insertion order.
-/

def mget {κ ν : Type} [DecidableEq κ] : List (κ × ν) → κ → Option ν
  | [], _ => none
  | (k', v) :: rest, k => if k' = k then some v else mget rest k

def mset {κ ν : Type} [DecidableEq κ] : List (κ × ν) → κ → ν → List (κ × ν)
  | [], k, v => [(k, v)]
  | (k', v') :: rest, k, v =>
    if k' = k then (k, v) :: rest else (k', v') :: mset rest k v

def mdel {κ ν : Type} [DecidableEq κ] : List (κ × ν) → κ → List (κ × ν)
  | [], _ => []
  | (k', v') :: rest, k =>
    if k' = k then mdel rest k else (k', v') :: mdel rest k

def mkeys {κ ν : Type} (m : List (κ × ν)) : List κ :=
  m.map Prod.fst

/-- Python `set.add` on the `_freshlv` set. -/
def sAdd (s : List String) (x : String) : List String :=
  if x ∈ s then s else s ++ [x]

/-- The in-memory state of `LVMCache`: the three maps, the fresh-LVs
set, the two global stale flags, and the `cache_lvs` configuration
bit.  (The `CacheStats` hit/miss counters are observability only and
not part of the modelled state.) -/
structure LVMState where
  pvs : List (String × Entry PV)
  vgs : List (String × Entry VG)
  lvs : List ((String × String) × Entry LV)
  freshlv : List String
  stalepv : Bool
  stalevg : Bool
  cache_lvs : Bool
deriving DecidableEq

/-- The outcome of one `LVMCache.cmd()` invocation as seen by the cache
procedures: return code and stdout lines (stderr is only logged). -/
structure Resp where
  rc : Nat
  out : List String
deriving DecidableEq

/-- The exceptions of lvm.py that the modelled operations can raise.
`attributeError` is Python's `AttributeError`, raised by attribute
access on a `Stale`/`Unreadable` entry; `valueError` and
`zeroDivisionError` model `int(...)` and `//` failures. -/
inductive PyErr where
  | invalidOutputLine (command : String) (line : String)
  | volumeGroupDoesNotExist (vgName : String)
  | logicalVolumeDoesNotExistError (vgName : String) (lvName : Option String)
  | inaccessiblePhysDev (pvName : String)
  | volumeGroupSizeError (free needed : Nat)
  | logicalVolumeExtendError (vgName lvName : String) (size_mb : Nat)
  | cannotRemoveLogicalVolume (vgName : String) (lvNames : List String)
  | couldNotMovePVData (pvName vgName : String)
  | attributeError (name : String)
  | valueError
  | zeroDivisionError
deriving DecidableEq

/-! ### Reload procedures (`_reloadpvs` / `_reloadvgs` / `_reloadlvs`,
lvm.py lines 552-761)

Each takes the `Resp` the wrapped command produced (an oracle value in
this embedding) and the current state, and returns the `updated`
dictionary the Python method returns together with the new state.  A
raised `InvalidOutputLine` propagates with the mutations applied up to
the raise, as in Python.
-/

/-- Parse one `pvs` output row, raising `InvalidOutputLine` when the
field count is not `PV_FIELDS_LEN`. -/
def parsePVLine (line : String) : Except PyErr PV :=
  let fields := pyFields line
  if fields.length = PV_FIELDS_LEN then
    .ok (PV.fromlvm (fields.getD 0 "") (fields.getD 1 "") (fields.getD 2 "")
      (fields.getD 3 "") (fields.getD 4 "") (fields.getD 5 "") (fields.getD 6 "")
      (fields.getD 7 "") (fields.getD 8 "") (fields.getD 9 "") (fields.getD 10 ""))
  else .error (.invalidOutputLine "pvs" line)

/-- The `for line in out` loop of `_reloadpvs`: upsert every parsed PV,
skipping rows whose `name` is `[unknown]`. -/
def pvsParseLoop : List String → List (String × Entry PV) → List (String × Entry PV) →
    Except PyErr Unit × List (String × Entry PV) × List (String × Entry PV)
  | [], pvs, upd => (.ok (), pvs, upd)
  | line :: rest, pvs, upd =>
    match parsePVLine line with
    | .error e => (.error e, pvs, upd)
    | .ok pv =>
      if pv.name = UNKNOWN then pvsParseLoop rest pvs upd
      else pvsParseLoop rest (mset pvs pv.name (.fresh pv)) (mset upd pv.name (.fresh pv))

/-- The failure branch of `_reloadpvs`: every scoped entry that
`is_stale()` becomes `Unreadable` and is recorded in `updatedPVs`. -/
def markUnreadablePvs : List String → List (String × Entry PV) → List (String × Entry PV) →
    List (String × Entry PV) × List (String × Entry PV)
  | [], pvs, upd => (pvs, upd)
  | p :: rest, pvs, upd =>
    match mget pvs p with
    | some e =>
      if e.is_stale then
        markUnreadablePvs rest (mset pvs p (.unreadable (Entry.nameOf PV.name e)))
          (mset upd p (.unreadable (Entry.nameOf PV.name e)))
      else markUnreadablePvs rest pvs upd
    | none => markUnreadablePvs rest pvs upd

/-- `LVMCache._reloadpvs(pvName)`. -/
def reloadpvs (resp : Resp) (pvNames : List String) (st : LVMState) :
    Except PyErr (List (String × Entry PV)) × LVMState :=
  if resp.rc ≠ 0 then
    let scope := if pvNames.isEmpty then mkeys st.pvs else pvNames
    let r := markUnreadablePvs scope st.pvs []
    (.ok r.2, { st with pvs := r.1 })
  else
    match pvsParseLoop resp.out st.pvs [] with
    | (.error e, pvs₁, _) => (.error e, { st with pvs := pvs₁ })
    | (.ok _, pvs₁, upd) =>
      let delNames := (if pvNames.isEmpty then mkeys pvs₁ else pvNames).filter
        (fun n => (mget upd n).isNone)
      let pvs₂ := delNames.foldl mdel pvs₁
      (.ok upd, { st with pvs := pvs₂,
                          stalepv := if pvNames.isEmpty then false else st.stalepv })

/-- First loop of `_reloadvgs`: group rows by `uuid`, collapsing the
per-row `pv_name` field into a list and skipping rows whose `pv_name`
is `[unknown]`.  Raises `InvalidOutputLine` on a bad field count. -/
def vgsGroupLoop : List String → List (String × (List String × List String)) →
    Except PyErr (List (String × (List String × List String)))
  | [], acc => .ok acc
  | line :: rest, acc =>
    let fields := pyFields line
    if fields.length = VG_FIELDS_LEN then
      let uuid := fields.getD 0 ""
      let pvn := fields.getD 13 ""
      if pvn = UNKNOWN then vgsGroupLoop rest acc
      else
        match mget acc uuid with
        | none => vgsGroupLoop rest (acc ++ [(uuid, (fields.take 13, [pvn]))])
        | some g => vgsGroupLoop rest (mset acc uuid (g.1, g.2 ++ [pvn]))
    else .error (.invalidOutputLine "vgs" line)

/-- Second loop of `_reloadvgs`: build a `VG` per grouped uuid and
upsert it (the `pv_count` consistency check only logs). -/
def vgsBuild : List (String × (List String × List String)) →
    List (String × Entry VG) → List (String × VG) →
    List (String × Entry VG) × List (String × VG)
  | [], vgs, upd => (vgs, upd)
  | (_, g) :: rest, vgs, upd =>
    let vg := VG.fromlvm g.1 g.2
    vgsBuild rest (mset vgs vg.name (.fresh vg)) (mset upd vg.name vg)

/-- The failure branch of `_reloadvgs`: scoped stale entries become
`Unreadable` (they are only logged, not returned). -/
def markUnreadableVgs : List String → List (String × Entry VG) → List (String × Entry VG)
  | [], vgs => vgs
  | v :: rest, vgs =>
    match mget vgs v with
    | some e =>
      if e.is_stale then
        markUnreadableVgs rest (mset vgs v (.unreadable (Entry.nameOf VG.name e)))
      else markUnreadableVgs rest vgs
    | none => markUnreadableVgs rest vgs

/-- The stale-VG removal loop: delete scoped names that did not appear
in the output, discarding their fresh-LVs marker as well. -/
def removeStaleVgs : List String → List (String × Entry VG) → List String →
    List (String × Entry VG) × List String
  | [], vgs, freshlv => (vgs, freshlv)
  | n :: rest, vgs, freshlv =>
    if (mget vgs n).isSome then removeStaleVgs rest (mdel vgs n) (freshlv.erase n)
    else removeStaleVgs rest vgs freshlv

/-- `LVMCache._reloadvgs(vgName)`.  Unlike the PV/LV variants this does
not return early on command failure: whatever output arrived is still
parsed, and the stale-removal and flag update always run. -/
def reloadvgs (resp : Resp) (vgNames : List String) (st : LVMState) :
    Except PyErr (List (String × VG)) × LVMState :=
  let vgs₀ :=
    if resp.rc ≠ 0 then
      markUnreadableVgs (if vgNames.isEmpty then mkeys st.vgs else vgNames) st.vgs
    else st.vgs
  match vgsGroupLoop resp.out [] with
  | .error e => (.error e, { st with vgs := vgs₀ })
  | .ok groups =>
    let b := vgsBuild groups vgs₀ []
    let delNames := (if vgNames.isEmpty then mkeys b.1 else vgNames).filter
      (fun n => (mget b.2 n).isNone)
    let r := removeStaleVgs delNames b.1 st.freshlv
    (.ok b.2, { st with vgs := r.1, freshlv := r.2,
                        stalevg := if vgNames.isEmpty then false else st.stalevg })

/-- Parse one `lvs` output row, raising `InvalidOutputLine` when the
field count is not `LV_FIELDS_LEN`. -/
def parseLVLine (line : String) : Except PyErr LV :=
  let fields := pyFields line
  if fields.length = LV_FIELDS_LEN then
    .ok (LV.fromlvm (fields.getD 0 "") (fields.getD 1 "") (fields.getD 2 "")
      (fields.getD 3 "") (fields.getD 4 "") (fields.getD 5 "") (fields.getD 6 "")
      (fields.getD 7 ""))
  else .error (.invalidOutputLine "lvs" line)

/-- The `for line in out` loop of `_reloadlvs`: keep only first-extent
rows (`seg_start_pe == "0"`), keyed by `(vg_name, name)`. -/
def lvsParseLoop : List String → List ((String × String) × Entry LV) →
    List ((String × String) × Entry LV) →
    Except PyErr Unit × List ((String × String) × Entry LV) ×
      List ((String × String) × Entry LV)
  | [], lvs, upd => (.ok (), lvs, upd)
  | line :: rest, lvs, upd =>
    match parseLVLine line with
    | .error e => (.error e, lvs, upd)
    | .ok lv =>
      if lv.seg_start_pe = "0" then
        lvsParseLoop rest (mset lvs (lv.vg_name, lv.name) (.fresh lv))
          (mset upd (lv.vg_name, lv.name) (.fresh lv))
      else lvsParseLoop rest lvs upd

/-- Names of the cached LVs of a VG (`lvn for vgn, lvn in self._lvs if
vgn == vgName`). -/
def lvKeysOfVg (vgName : String) (lvs : List ((String × String) × Entry LV)) : List String :=
  (lvs.filter (fun p => p.1.1 == vgName)).map (fun p => p.1.2)

/-- The failure branch of `_reloadlvs`: every scoped LV entry that
`is_stale()` becomes `Unreadable` and is recorded in `updatedLVs`. -/
def markUnreadableLvs (vgName : String) :
    List String → List ((String × String) × Entry LV) →
    List ((String × String) × Entry LV) →
    List ((String × String) × Entry LV) × List ((String × String) × Entry LV)
  | [], lvs, upd => (lvs, upd)
  | n :: rest, lvs, upd =>
    match mget lvs (vgName, n) with
    | some e =>
      if e.is_stale then
        markUnreadableLvs vgName rest
          (mset lvs (vgName, n) (.unreadable (Entry.nameOf LV.name e)))
          (mset upd (vgName, n) (.unreadable (Entry.nameOf LV.name e)))
      else markUnreadableLvs vgName rest lvs upd
    | none => markUnreadableLvs vgName rest lvs upd

/-- `LVMCache._reloadlvs(vgName, lvNames)`.  On command failure it
returns early after the `Unreadable` marking; on success it removes
scoped LVs that did not appear and, for an unscoped reload, records the
VG in `_freshlv`. -/
def reloadlvs (resp : Resp) (vgName : String) (lvNames : List String) (st : LVMState) :
    Except PyErr (List ((String × String) × Entry LV)) × LVMState :=
  if resp.rc ≠ 0 then
    let scope := if lvNames.isEmpty then lvKeysOfVg vgName st.lvs else lvNames
    let r := markUnreadableLvs vgName scope st.lvs []
    (.ok r.2, { st with lvs := r.1 })
  else
    match lvsParseLoop resp.out st.lvs [] with
    | (.error e, lvs₁, _) => (.error e, { st with lvs := lvs₁ })
    | (.ok _, lvs₁, upd) =>
      let staleL := (if lvNames.isEmpty then lvKeysOfVg vgName lvs₁ else lvNames).filter
        (fun n => (mget upd (vgName, n)).isNone)
      let lvs₂ := staleL.foldl (fun m n => mdel m (vgName, n)) lvs₁
      let fresh₂ := if lvNames.isEmpty then sAdd st.freshlv vgName else st.freshlv
      (.ok upd, { st with lvs := lvs₂, freshlv := fresh₂ })

/-! ### Association-list lemmas -/

theorem mget_nil {κ ν : Type} [DecidableEq κ] (k : κ) : mget ([] : List (κ × ν)) k = none :=
  rfl

theorem mget_cons {κ ν : Type} [DecidableEq κ] (a : κ) (b : ν) (m : List (κ × ν)) (k : κ) :
    mget ((a, b) :: m) k = if a = k then some b else mget m k :=
  rfl

theorem mset_nil {κ ν : Type} [DecidableEq κ] (k : κ) (v : ν) :
    mset ([] : List (κ × ν)) k v = [(k, v)] :=
  rfl

theorem mset_cons {κ ν : Type} [DecidableEq κ] (a : κ) (b : ν) (m : List (κ × ν)) (k : κ) (v : ν) :
    mset ((a, b) :: m) k v = if a = k then (k, v) :: m else (a, b) :: mset m k v :=
  rfl

theorem mdel_cons {κ ν : Type} [DecidableEq κ] (a : κ) (b : ν) (m : List (κ × ν)) (k : κ) :
    mdel ((a, b) :: m) k = if a = k then mdel m k else (a, b) :: mdel m k :=
  rfl

theorem mget_mset {κ ν : Type} [DecidableEq κ] (m : List (κ × ν)) (k k' : κ) (v : ν) :
    mget (mset m k v) k' = if k = k' then some v else mget m k' := by
  induction m with
  | nil =>
    rw [mset_nil, mget_cons, mget_nil]
  | cons p rest ih =>
    obtain ⟨pk, pv⟩ := p
    rw [mset_cons]
    by_cases hpk : pk = k
    · rw [if_pos hpk, mget_cons, mget_cons, hpk]
      by_cases h : k = k'
      · rw [if_pos h, if_pos h]
      · rw [if_neg h, if_neg h, if_neg h]
    · rw [if_neg hpk, mget_cons, mget_cons, ih]
      by_cases h1 : pk = k'
      · have h2 : ¬ k = k' := fun h => hpk (h1.trans h.symm)
        rw [if_pos h1, if_neg h2, if_pos h1]
      · rw [if_neg h1, if_neg h1]

theorem mget_mdel {κ ν : Type} [DecidableEq κ] (m : List (κ × ν)) (k k' : κ) :
    mget (mdel m k) k' = if k = k' then none else mget m k' := by
  induction m with
  | nil =>
    show (none : Option ν) = if k = k' then none else none
    by_cases h : k = k'
    · rw [if_pos h]
    · rw [if_neg h]
  | cons p rest ih =>
    obtain ⟨pk, pv⟩ := p
    rw [mdel_cons]
    by_cases hpk : pk = k
    · rw [if_pos hpk, ih, mget_cons, hpk]
      by_cases h : k = k'
      · rw [if_pos h, if_pos h]
      · rw [if_neg h, if_neg h, if_neg h]
    · rw [if_neg hpk, mget_cons, mget_cons, ih]
      by_cases h1 : pk = k'
      · have h2 : ¬ k = k' := fun h => hpk (h1.trans h.symm)
        rw [if_pos h1, if_neg h2, if_pos h1]
      · rw [if_neg h1, if_neg h1]

theorem mem_of_mget {κ ν : Type} [DecidableEq κ] {m : List (κ × ν)} {k : κ} {v : ν}
    (h : mget m k = some v) : (k, v) ∈ m := by
  induction m with
  | nil => simp [mget_nil] at h
  | cons p rest ih =>
    obtain ⟨pk, pv⟩ := p
    rw [mget_cons] at h
    by_cases hpk : pk = k
    · rw [if_pos hpk] at h
      have hv : pv = v := Option.some.inj h
      rw [← hpk, ← hv]
      exact List.mem_cons_self _ _
    · rw [if_neg hpk] at h
      exact List.mem_cons_of_mem _ (ih h)

theorem mem_mkeys_of_mget {κ ν : Type} [DecidableEq κ] {m : List (κ × ν)} {k : κ} {v : ν}
    (h : mget m k = some v) : k ∈ mkeys m :=
  List.mem_map.mpr ⟨(k, v), mem_of_mget h, rfl⟩

theorem mem_mset {κ ν : Type} [DecidableEq κ] {m : List (κ × ν)} {k : κ} {v : ν} {x : κ × ν}
    (h : x ∈ mset m k v) : x ∈ m ∨ x = (k, v) := by
  induction m with
  | nil =>
    rw [mset_nil] at h
    right
    simpa using h
  | cons p rest ih =>
    obtain ⟨pk, pv⟩ := p
    rw [mset_cons] at h
    by_cases hpk : pk = k
    · rw [if_pos hpk] at h
      rcases List.mem_cons.mp h with h' | h'
      · right; exact h'
      · left; exact List.mem_cons_of_mem _ h'
    · rw [if_neg hpk] at h
      rcases List.mem_cons.mp h with h' | h'
      · left; rw [h']; exact List.mem_cons_self _ _
      · rcases ih h' with h'' | h''
        · left; exact List.mem_cons_of_mem _ h''
        · right; exact h''

theorem mget_mset_cases {κ ν : Type} [DecidableEq κ] {m : List (κ × ν)} {k n : κ} {v w : ν}
    (h : mget (mset m k v) n = some w) : (k = n ∧ w = v) ∨ mget m n = some w := by
  rw [mget_mset] at h
  by_cases hkn : k = n
  · rw [if_pos hkn] at h
    exact Or.inl ⟨hkn, (Option.some.inj h).symm⟩
  · rw [if_neg hkn] at h
    exact Or.inr h

theorem mget_foldl_mdel {κ ν : Type} [DecidableEq κ] (names : List κ) (m : List (κ × ν)) (k : κ) :
    mget (names.foldl mdel m) k = if k ∈ names then none else mget m k := by
  induction names generalizing m with
  | nil => simp
  | cons n rest ih =>
    rw [List.foldl_cons, ih, mget_mdel]
    by_cases hk : k ∈ rest
    · rw [if_pos hk, if_pos (List.mem_cons_of_mem _ hk)]
    · rw [if_neg hk]
      by_cases hn : n = k
      · have hmem : k ∈ n :: rest := by
          rw [← hn]; exact List.mem_cons_self _ _
        rw [if_pos hn, if_pos hmem]
      · have hmem : ¬ k ∈ n :: rest := by
          rw [List.mem_cons]
          rintro (h | h)
          · exact hn h.symm
          · exact hk h
        rw [if_neg hn, if_neg hmem]

theorem mget_foldl_mdel_map {κ ν α : Type} [DecidableEq κ] (f : α → κ) (names : List α)
    (m : List (κ × ν)) (k : κ) :
    mget (names.foldl (fun acc n => mdel acc (f n)) m) k =
      if ∃ n ∈ names, f n = k then none else mget m k := by
  induction names generalizing m with
  | nil => simp
  | cons n rest ih =>
    rw [List.foldl_cons, ih, mget_mdel]
    by_cases hk : ∃ x ∈ rest, f x = k
    · obtain ⟨x, hx, hfx⟩ := hk
      rw [if_pos ⟨x, hx, hfx⟩, if_pos ⟨x, List.mem_cons_of_mem _ hx, hfx⟩]
    · rw [if_neg hk]
      by_cases hn : f n = k
      · rw [if_pos hn, if_pos ⟨n, List.mem_cons_self _ _, hn⟩]
      · have hcons : ¬ ∃ x ∈ n :: rest, f x = k := by
          rintro ⟨x, hx, hfx⟩
          rcases List.mem_cons.mp hx with rfl | hx'
          · exact hn hfx
          · exact hk ⟨x, hx', hfx⟩
        rw [if_neg hn, if_neg hcons]

instance {ε α : Type} [DecidableEq ε] [DecidableEq α] : DecidableEq (Except ε α) := fun a b =>
  match a, b with
  | .ok x, .ok y =>
    if h : x = y then isTrue (by rw [h]) else isFalse (fun he => h (Except.ok.inj he))
  | .ok _, .error _ => isFalse (fun he => Except.noConfusion he)
  | .error _, .ok _ => isFalse (fun he => Except.noConfusion he)
  | .error x, .error y =>
    if h : x = y then isTrue (by rw [h]) else isFalse (fun he => h (Except.error.inj he))

/-! ### C6: parsing and grouping of `vgs` output (scenario S1) -/

def vgRow1 : String :=
  "uuid-1|vg0|wz--n-|107374182400|53687091200|134217728|800|400|tag1,tag2|16777216|8388608|3|2|/dev/mapper/pv0"

def vgRow2 : String :=
  "uuid-1|vg0|wz--n-|107374182400|53687091200|134217728|800|400|tag1,tag2|16777216|8388608|3|2|/dev/mapper/pv1"

/-- The empty cache state used for concrete scenarios. -/
def st0 : LVMState :=
  { pvs := [], vgs := [], lvs := [], freshlv := [], stalepv := true,
    stalevg := true, cache_lvs := false }

/-- C6: a `vgs` reload of the two scenario rows groups them by uuid
into exactly one `VG` record named `vg0`, writeable (permission bit
`w`), partial state `OK` (attr bit `-`), tags from comma-splitting,
both pv names collapsed into the tuple, and extent_size `134217728`. -/
theorem c6_vgs_reload_groups_rows :
    (reloadvgs ⟨0, [vgRow1, vgRow2]⟩ [] st0).1 = .ok [("vg0",
      { uuid := "uuid-1", name := "vg0", attr := ['w', 'z', '-', '-', 'n', '-'],
        size := "107374182400", free := "53687091200", extent_size := "134217728",
        extent_count := "800", free_count := "400", tags := ["tag1", "tag2"],
        vg_mda_size := "16777216", vg_mda_free := "8388608", lv_count := "3",
        pv_count := "2", pv_name := ["/dev/mapper/pv0", "/dev/mapper/pv1"],
        writeable := true, part_state := "OK" })] := by
  decide

/-! ### C7: field-count checking in the three parsers -/

theorem pvsParseLoop_ok (lines : List String)
    (h : ∀ l ∈ lines, (pyFields l).length = PV_FIELDS_LEN) :
    ∀ pvs upd, ∃ a b, pvsParseLoop lines pvs upd = (.ok (), a, b) := by
  induction lines with
  | nil => intro pvs upd; exact ⟨pvs, upd, rfl⟩
  | cons line rest ih =>
    intro pvs upd
    have hl := h line (List.mem_cons_self _ _)
    have hrest : ∀ l ∈ rest, (pyFields l).length = PV_FIELDS_LEN :=
      fun l hl' => h l (List.mem_cons_of_mem _ hl')
    have hok : ∃ pv, parsePVLine line = .ok pv := by
      unfold parsePVLine
      rw [if_pos hl]
      exact ⟨_, rfl⟩
    obtain ⟨pv, hok⟩ := hok
    simp only [pvsParseLoop, hok]
    by_cases hu : pv.name = UNKNOWN
    · rw [if_pos hu]
      exact ih hrest pvs upd
    · rw [if_neg hu]
      exact ih hrest _ _

theorem pvsParseLoop_error (lines : List String) :
    ∀ pvs upd e a b, pvsParseLoop lines pvs upd = (.error e, a, b) →
      ∃ l ∈ lines, e = .invalidOutputLine "pvs" l ∧ (pyFields l).length ≠ PV_FIELDS_LEN := by
  induction lines with
  | nil =>
    intro pvs upd e a b h
    simp [pvsParseLoop] at h
  | cons line rest ih =>
    intro pvs upd e a b h
    by_cases hl : (pyFields line).length = PV_FIELDS_LEN
    · have hok : ∃ pv, parsePVLine line = .ok pv := by
        unfold parsePVLine
        rw [if_pos hl]
        exact ⟨_, rfl⟩
      obtain ⟨pv, hok⟩ := hok
      simp only [pvsParseLoop, hok] at h
      by_cases hu : pv.name = UNKNOWN
      · rw [if_pos hu] at h
        obtain ⟨l, hml, he⟩ := ih _ _ _ _ _ h
        exact ⟨l, List.mem_cons_of_mem _ hml, he⟩
      · rw [if_neg hu] at h
        obtain ⟨l, hml, he⟩ := ih _ _ _ _ _ h
        exact ⟨l, List.mem_cons_of_mem _ hml, he⟩
    · have herr : parsePVLine line = .error (.invalidOutputLine "pvs" line) := by
        unfold parsePVLine
        rw [if_neg hl]
      simp only [pvsParseLoop, herr, Prod.mk.injEq] at h
      exact ⟨line, List.mem_cons_self _ _, (Except.error.inj h.1).symm, hl⟩

theorem lvsParseLoop_ok (lines : List String)
    (h : ∀ l ∈ lines, (pyFields l).length = LV_FIELDS_LEN) :
    ∀ lvs upd, ∃ a b, lvsParseLoop lines lvs upd = (.ok (), a, b) := by
  induction lines with
  | nil => intro lvs upd; exact ⟨lvs, upd, rfl⟩
  | cons line rest ih =>
    intro lvs upd
    have hl := h line (List.mem_cons_self _ _)
    have hrest : ∀ l ∈ rest, (pyFields l).length = LV_FIELDS_LEN :=
      fun l hl' => h l (List.mem_cons_of_mem _ hl')
    have hok : ∃ lv, parseLVLine line = .ok lv := by
      unfold parseLVLine
      rw [if_pos hl]
      exact ⟨_, rfl⟩
    obtain ⟨lv, hok⟩ := hok
    simp only [lvsParseLoop, hok]
    by_cases hs : lv.seg_start_pe = "0"
    · rw [if_pos hs]
      exact ih hrest _ _
    · rw [if_neg hs]
      exact ih hrest lvs upd

theorem lvsParseLoop_error (lines : List String) :
    ∀ lvs upd e a b, lvsParseLoop lines lvs upd = (.error e, a, b) →
      ∃ l ∈ lines, e = .invalidOutputLine "lvs" l ∧ (pyFields l).length ≠ LV_FIELDS_LEN := by
  induction lines with
  | nil =>
    intro lvs upd e a b h
    simp [lvsParseLoop] at h
  | cons line rest ih =>
    intro lvs upd e a b h
    by_cases hl : (pyFields line).length = LV_FIELDS_LEN
    · have hok : ∃ lv, parseLVLine line = .ok lv := by
        unfold parseLVLine
        rw [if_pos hl]
        exact ⟨_, rfl⟩
      obtain ⟨lv, hok⟩ := hok
      simp only [lvsParseLoop, hok] at h
      by_cases hs : lv.seg_start_pe = "0"
      · rw [if_pos hs] at h
        obtain ⟨l, hml, he⟩ := ih _ _ _ _ _ h
        exact ⟨l, List.mem_cons_of_mem _ hml, he⟩
      · rw [if_neg hs] at h
        obtain ⟨l, hml, he⟩ := ih _ _ _ _ _ h
        exact ⟨l, List.mem_cons_of_mem _ hml, he⟩
    · have herr : parseLVLine line = .error (.invalidOutputLine "lvs" line) := by
        unfold parseLVLine
        rw [if_neg hl]
      simp only [lvsParseLoop, herr, Prod.mk.injEq] at h
      exact ⟨line, List.mem_cons_self _ _, (Except.error.inj h.1).symm, hl⟩

theorem vgsGroupLoop_ok (lines : List String)
    (h : ∀ l ∈ lines, (pyFields l).length = VG_FIELDS_LEN) :
    ∀ acc, ∃ groups, vgsGroupLoop lines acc = .ok groups := by
  induction lines with
  | nil => intro acc; exact ⟨acc, rfl⟩
  | cons line rest ih =>
    intro acc
    have hl := h line (List.mem_cons_self _ _)
    have hrest : ∀ l ∈ rest, (pyFields l).length = VG_FIELDS_LEN :=
      fun l hl' => h l (List.mem_cons_of_mem _ hl')
    simp only [vgsGroupLoop]
    rw [if_pos hl]
    by_cases hu : (pyFields line).getD 13 "" = UNKNOWN
    · rw [if_pos hu]
      exact ih hrest acc
    · rw [if_neg hu]
      cases hg : mget acc ((pyFields line).getD 0 "") with
      | none => exact ih hrest _
      | some g => exact ih hrest _

theorem vgsGroupLoop_error (lines : List String) :
    ∀ acc e, vgsGroupLoop lines acc = .error e →
      ∃ l ∈ lines, e = .invalidOutputLine "vgs" l ∧ (pyFields l).length ≠ VG_FIELDS_LEN := by
  induction lines with
  | nil =>
    intro acc e h
    simp [vgsGroupLoop] at h
  | cons line rest ih =>
    intro acc e h
    by_cases hl : (pyFields line).length = VG_FIELDS_LEN
    · simp only [vgsGroupLoop] at h
      rw [if_pos hl] at h
      by_cases hu : (pyFields line).getD 13 "" = UNKNOWN
      · rw [if_pos hu] at h
        obtain ⟨l, hml, he⟩ := ih _ _ h
        exact ⟨l, List.mem_cons_of_mem _ hml, he⟩
      · rw [if_neg hu] at h
        cases hg : mget acc ((pyFields line).getD 0 "") with
        | none =>
          rw [hg] at h
          obtain ⟨l, hml, he⟩ := ih _ _ h
          exact ⟨l, List.mem_cons_of_mem _ hml, he⟩
        | some g =>
          rw [hg] at h
          obtain ⟨l, hml, he⟩ := ih _ _ h
          exact ⟨l, List.mem_cons_of_mem _ hml, he⟩
    · simp only [vgsGroupLoop] at h
      rw [if_neg hl] at h
      exact ⟨line, List.mem_cons_self _ _, (Except.error.inj h).symm, hl⟩

theorem reloadpvs_ok_of_good (lines pvNames : List String) (st : LVMState)
    (h : ∀ l ∈ lines, (pyFields l).length = PV_FIELDS_LEN) :
    ∃ upd st', reloadpvs ⟨0, lines⟩ pvNames st = (.ok upd, st') := by
  obtain ⟨a, b, hloop⟩ := pvsParseLoop_ok lines h st.pvs []
  unfold reloadpvs
  rw [if_neg (fun hh => hh rfl)]
  rw [hloop]
  exact ⟨_, _, rfl⟩

theorem reloadpvs_error_field_count (lines pvNames : List String) (st : LVMState)
    (e : PyErr) (st' : LVMState)
    (h : reloadpvs ⟨0, lines⟩ pvNames st = (.error e, st')) :
    ∃ l ∈ lines, e = .invalidOutputLine "pvs" l ∧ (pyFields l).length ≠ PV_FIELDS_LEN := by
  unfold reloadpvs at h
  rw [if_neg (fun hh => hh rfl)] at h
  rcases hloop : pvsParseLoop lines st.pvs [] with ⟨exc, a, b⟩
  rw [hloop] at h
  cases exc with
  | error e' =>
    simp only [Prod.mk.injEq] at h
    obtain ⟨h1, -⟩ := h
    obtain rfl : e' = e := Except.error.inj h1
    exact pvsParseLoop_error lines _ _ _ _ _ hloop
  | ok u =>
    simp only [Prod.mk.injEq] at h
    exact absurd h.1 (fun hh => Except.noConfusion hh)

theorem reloadlvs_ok_of_good (lines : List String) (vgName : String) (lvNames : List String)
    (st : LVMState) (h : ∀ l ∈ lines, (pyFields l).length = LV_FIELDS_LEN) :
    ∃ upd st', reloadlvs ⟨0, lines⟩ vgName lvNames st = (.ok upd, st') := by
  obtain ⟨a, b, hloop⟩ := lvsParseLoop_ok lines h st.lvs []
  unfold reloadlvs
  rw [if_neg (fun hh => hh rfl)]
  rw [hloop]
  exact ⟨_, _, rfl⟩

theorem reloadlvs_error_field_count (lines : List String) (vgName : String)
    (lvNames : List String) (st : LVMState) (e : PyErr) (st' : LVMState)
    (h : reloadlvs ⟨0, lines⟩ vgName lvNames st = (.error e, st')) :
    ∃ l ∈ lines, e = .invalidOutputLine "lvs" l ∧ (pyFields l).length ≠ LV_FIELDS_LEN := by
  unfold reloadlvs at h
  rw [if_neg (fun hh => hh rfl)] at h
  rcases hloop : lvsParseLoop lines st.lvs [] with ⟨exc, a, b⟩
  rw [hloop] at h
  cases exc with
  | error e' =>
    simp only [Prod.mk.injEq] at h
    obtain ⟨h1, -⟩ := h
    obtain rfl : e' = e := Except.error.inj h1
    exact lvsParseLoop_error lines _ _ _ _ _ hloop
  | ok u =>
    simp only [Prod.mk.injEq] at h
    exact absurd h.1 (fun hh => Except.noConfusion hh)

theorem reloadvgs_ok_of_good (lines vgNames : List String) (st : LVMState)
    (h : ∀ l ∈ lines, (pyFields l).length = VG_FIELDS_LEN) :
    ∃ upd st', reloadvgs ⟨0, lines⟩ vgNames st = (.ok upd, st') := by
  obtain ⟨groups, hloop⟩ := vgsGroupLoop_ok lines h []
  unfold reloadvgs
  rw [hloop]
  exact ⟨_, _, rfl⟩

theorem reloadvgs_error_field_count (lines vgNames : List String) (st : LVMState)
    (resp : Resp) (e : PyErr) (st' : LVMState) (hout : resp.out = lines)
    (h : reloadvgs resp vgNames st = (.error e, st')) :
    ∃ l ∈ lines, e = .invalidOutputLine "vgs" l ∧ (pyFields l).length ≠ VG_FIELDS_LEN := by
  unfold reloadvgs at h
  rw [hout] at h
  rcases hloop : vgsGroupLoop lines [] with e' | groups
  · rw [hloop] at h
    simp only [Prod.mk.injEq] at h
    obtain rfl : e' = e := Except.error.inj h.1
    exact vgsGroupLoop_error lines _ _ hloop
  · rw [hloop] at h
    simp only [Prod.mk.injEq] at h
    exact absurd h.1 (fun hh => Except.noConfusion hh)

theorem pvsParseLoop_error_of_bad :
    ∀ (lines : List String) (pvs upd : List (String × Entry PV)),
      (∃ l ∈ lines, (pyFields l).length ≠ PV_FIELDS_LEN) →
      ∃ l ∈ lines, (pyFields l).length ≠ PV_FIELDS_LEN ∧
        ∃ a b, pvsParseLoop lines pvs upd = (.error (.invalidOutputLine "pvs" l), a, b) := by
  intro lines
  induction lines with
  | nil =>
    intro pvs upd h
    obtain ⟨l, hl, -⟩ := h
    cases hl
  | cons line rest ih =>
    intro pvs upd hbad
    by_cases hl : (pyFields line).length = PV_FIELDS_LEN
    · have hb' : ∃ l ∈ rest, (pyFields l).length ≠ PV_FIELDS_LEN := by
        obtain ⟨l, hml, hne⟩ := hbad
        cases hml with
        | head => exact absurd hl hne
        | tail _ h' => exact ⟨l, h', hne⟩
      have hok : ∃ pv, parsePVLine line = .ok pv := by
        unfold parsePVLine
        rw [if_pos hl]
        exact ⟨_, rfl⟩
      obtain ⟨pv, hok⟩ := hok
      by_cases hu : pv.name = UNKNOWN
      · obtain ⟨l, hml, hne, a, b, he⟩ := ih pvs upd hb'
        refine ⟨l, List.mem_cons_of_mem _ hml, hne, a, b, ?_⟩
        simp only [pvsParseLoop, hok]
        rw [if_pos hu]
        exact he
      · obtain ⟨l, hml, hne, a, b, he⟩ :=
          ih (mset pvs pv.name (.fresh pv)) (mset upd pv.name (.fresh pv)) hb'
        refine ⟨l, List.mem_cons_of_mem _ hml, hne, a, b, ?_⟩
        simp only [pvsParseLoop, hok]
        rw [if_neg hu]
        exact he
    · have herr : parsePVLine line = .error (.invalidOutputLine "pvs" line) := by
        unfold parsePVLine
        rw [if_neg hl]
      refine ⟨line, List.mem_cons_self _ _, hl, pvs, upd, ?_⟩
      simp only [pvsParseLoop, herr]

theorem lvsParseLoop_error_of_bad :
    ∀ (lines : List String) (lvs upd : List ((String × String) × Entry LV)),
      (∃ l ∈ lines, (pyFields l).length ≠ LV_FIELDS_LEN) →
      ∃ l ∈ lines, (pyFields l).length ≠ LV_FIELDS_LEN ∧
        ∃ a b, lvsParseLoop lines lvs upd = (.error (.invalidOutputLine "lvs" l), a, b) := by
  intro lines
  induction lines with
  | nil =>
    intro lvs upd h
    obtain ⟨l, hl, -⟩ := h
    cases hl
  | cons line rest ih =>
    intro lvs upd hbad
    by_cases hl : (pyFields line).length = LV_FIELDS_LEN
    · have hb' : ∃ l ∈ rest, (pyFields l).length ≠ LV_FIELDS_LEN := by
        obtain ⟨l, hml, hne⟩ := hbad
        cases hml with
        | head => exact absurd hl hne
        | tail _ h' => exact ⟨l, h', hne⟩
      have hok : ∃ lv, parseLVLine line = .ok lv := by
        unfold parseLVLine
        rw [if_pos hl]
        exact ⟨_, rfl⟩
      obtain ⟨lv, hok⟩ := hok
      by_cases hs : lv.seg_start_pe = "0"
      · obtain ⟨l, hml, hne, a, b, he⟩ :=
          ih (mset lvs (lv.vg_name, lv.name) (.fresh lv))
            (mset upd (lv.vg_name, lv.name) (.fresh lv)) hb'
        refine ⟨l, List.mem_cons_of_mem _ hml, hne, a, b, ?_⟩
        simp only [lvsParseLoop, hok]
        rw [if_pos hs]
        exact he
      · obtain ⟨l, hml, hne, a, b, he⟩ := ih lvs upd hb'
        refine ⟨l, List.mem_cons_of_mem _ hml, hne, a, b, ?_⟩
        simp only [lvsParseLoop, hok]
        rw [if_neg hs]
        exact he
    · have herr : parseLVLine line = .error (.invalidOutputLine "lvs" line) := by
        unfold parseLVLine
        rw [if_neg hl]
      refine ⟨line, List.mem_cons_self _ _, hl, lvs, upd, ?_⟩
      simp only [lvsParseLoop, herr]

theorem vgsGroupLoop_error_of_bad :
    ∀ (lines : List String) (acc : List (String × (List String × List String))),
      (∃ l ∈ lines, (pyFields l).length ≠ VG_FIELDS_LEN) →
      ∃ l ∈ lines, (pyFields l).length ≠ VG_FIELDS_LEN ∧
        vgsGroupLoop lines acc = .error (.invalidOutputLine "vgs" l) := by
  intro lines
  induction lines with
  | nil =>
    intro acc h
    obtain ⟨l, hl, -⟩ := h
    cases hl
  | cons line rest ih =>
    intro acc hbad
    by_cases hl : (pyFields line).length = VG_FIELDS_LEN
    · have hb' : ∃ l ∈ rest, (pyFields l).length ≠ VG_FIELDS_LEN := by
        obtain ⟨l, hml, hne⟩ := hbad
        cases hml with
        | head => exact absurd hl hne
        | tail _ h' => exact ⟨l, h', hne⟩
      by_cases hu : (pyFields line).getD 13 "" = UNKNOWN
      · obtain ⟨l, hml, hne, he⟩ := ih acc hb'
        refine ⟨l, List.mem_cons_of_mem _ hml, hne, ?_⟩
        simp only [vgsGroupLoop]
        rw [if_pos hl, if_pos hu]
        exact he
      · cases hg : mget acc ((pyFields line).getD 0 "") with
        | none =>
          obtain ⟨l, hml, hne, he⟩ :=
            ih (acc ++ [((pyFields line).getD 0 "",
              ((pyFields line).take 13, [(pyFields line).getD 13 ""]))]) hb'
          refine ⟨l, List.mem_cons_of_mem _ hml, hne, ?_⟩
          simp only [vgsGroupLoop]
          rw [if_pos hl, if_neg hu, hg]
          exact he
        | some g =>
          obtain ⟨l, hml, hne, he⟩ :=
            ih (mset acc ((pyFields line).getD 0 "")
              (g.1, g.2 ++ [(pyFields line).getD 13 ""])) hb'
          refine ⟨l, List.mem_cons_of_mem _ hml, hne, ?_⟩
          simp only [vgsGroupLoop]
          rw [if_pos hl, if_neg hu, hg]
          exact he
    · refine ⟨line, List.mem_cons_self _ _, hl, ?_⟩
      simp only [vgsGroupLoop]
      rw [if_neg hl]

theorem reloadpvs_error_of_bad (lines pvNames : List String) (st : LVMState)
    (hbad : ∃ l ∈ lines, (pyFields l).length ≠ PV_FIELDS_LEN) :
    ∃ l ∈ lines, (pyFields l).length ≠ PV_FIELDS_LEN ∧
      ∃ st', reloadpvs ⟨0, lines⟩ pvNames st = (.error (.invalidOutputLine "pvs" l), st') := by
  obtain ⟨l, hml, hne, a, b, hloop⟩ := pvsParseLoop_error_of_bad lines st.pvs [] hbad
  refine ⟨l, hml, hne, { st with pvs := a }, ?_⟩
  unfold reloadpvs
  rw [if_neg (fun hh => hh rfl), hloop]

theorem reloadlvs_error_of_bad (lines : List String) (vgName : String)
    (lvNames : List String) (st : LVMState)
    (hbad : ∃ l ∈ lines, (pyFields l).length ≠ LV_FIELDS_LEN) :
    ∃ l ∈ lines, (pyFields l).length ≠ LV_FIELDS_LEN ∧
      ∃ st', reloadlvs ⟨0, lines⟩ vgName lvNames st
        = (.error (.invalidOutputLine "lvs" l), st') := by
  obtain ⟨l, hml, hne, a, b, hloop⟩ := lvsParseLoop_error_of_bad lines st.lvs [] hbad
  refine ⟨l, hml, hne, { st with lvs := a }, ?_⟩
  unfold reloadlvs
  rw [if_neg (fun hh => hh rfl), hloop]

theorem reloadvgs_error_of_bad (lines vgNames : List String) (st : LVMState)
    (hbad : ∃ l ∈ lines, (pyFields l).length ≠ VG_FIELDS_LEN) :
    ∃ l ∈ lines, (pyFields l).length ≠ VG_FIELDS_LEN ∧
      ∃ st', reloadvgs ⟨0, lines⟩ vgNames st
        = (.error (.invalidOutputLine "vgs" l), st') := by
  obtain ⟨l, hml, hne, hloop⟩ := vgsGroupLoop_error_of_bad lines [] hbad
  refine ⟨l, hml, hne, st, ?_⟩
  unfold reloadvgs
  rw [show (Resp.out ⟨0, lines⟩) = lines from rfl, hloop]
  rfl

/-- C7: each reload splits every output line on `|`, trims the fields,
and raises `InvalidOutputLine` naming the command and the offending
line exactly when some field count differs from the expected count (11
for `pvs`, 14 for `vgs`, 8 for `lvs`): good counts parse without that
error, any raised error exhibits a line with a bad count, and a line
with a bad count forces the reload to raise `InvalidOutputLine`
carrying the command name and an offending line. -/
theorem c7_parser_field_counts (lines pvNames vgNames : List String) (vgName : String)
    (lvNames : List String) (st : LVMState) :
    PV_FIELDS_LEN = 11 ∧ VG_FIELDS_LEN = 14 ∧ LV_FIELDS_LEN = 8
  ∧ ((∀ l ∈ lines, (pyFields l).length = PV_FIELDS_LEN) →
      ∃ upd st', reloadpvs ⟨0, lines⟩ pvNames st = (.ok upd, st'))
  ∧ (∀ e st', reloadpvs ⟨0, lines⟩ pvNames st = (.error e, st') →
      ∃ l ∈ lines, e = .invalidOutputLine "pvs" l ∧ (pyFields l).length ≠ PV_FIELDS_LEN)
  ∧ ((∃ l ∈ lines, (pyFields l).length ≠ PV_FIELDS_LEN) →
      ∃ l ∈ lines, (pyFields l).length ≠ PV_FIELDS_LEN ∧
        ∃ st', reloadpvs ⟨0, lines⟩ pvNames st = (.error (.invalidOutputLine "pvs" l), st'))
  ∧ ((∀ l ∈ lines, (pyFields l).length = VG_FIELDS_LEN) →
      ∃ upd st', reloadvgs ⟨0, lines⟩ vgNames st = (.ok upd, st'))
  ∧ (∀ e st', reloadvgs ⟨0, lines⟩ vgNames st = (.error e, st') →
      ∃ l ∈ lines, e = .invalidOutputLine "vgs" l ∧ (pyFields l).length ≠ VG_FIELDS_LEN)
  ∧ ((∃ l ∈ lines, (pyFields l).length ≠ VG_FIELDS_LEN) →
      ∃ l ∈ lines, (pyFields l).length ≠ VG_FIELDS_LEN ∧
        ∃ st', reloadvgs ⟨0, lines⟩ vgNames st = (.error (.invalidOutputLine "vgs" l), st'))
  ∧ ((∀ l ∈ lines, (pyFields l).length = LV_FIELDS_LEN) →
      ∃ upd st', reloadlvs ⟨0, lines⟩ vgName lvNames st = (.ok upd, st'))
  ∧ (∀ e st', reloadlvs ⟨0, lines⟩ vgName lvNames st = (.error e, st') →
      ∃ l ∈ lines, e = .invalidOutputLine "lvs" l ∧ (pyFields l).length ≠ LV_FIELDS_LEN)
  ∧ ((∃ l ∈ lines, (pyFields l).length ≠ LV_FIELDS_LEN) →
      ∃ l ∈ lines, (pyFields l).length ≠ LV_FIELDS_LEN ∧
        ∃ st', reloadlvs ⟨0, lines⟩ vgName lvNames st
          = (.error (.invalidOutputLine "lvs" l), st')) := by
  refine ⟨rfl, rfl, rfl, ?_, ?_, ?_, ?_, ?_, ?_, ?_, ?_, ?_⟩
  · exact fun h => reloadpvs_ok_of_good lines pvNames st h
  · exact fun e st' h => reloadpvs_error_field_count lines pvNames st e st' h
  · exact fun h => reloadpvs_error_of_bad lines pvNames st h
  · exact fun h => reloadvgs_ok_of_good lines vgNames st h
  · exact fun e st' h => reloadvgs_error_field_count lines vgNames st ⟨0, lines⟩ e st' rfl h
  · exact fun h => reloadvgs_error_of_bad lines vgNames st h
  · exact fun h => reloadlvs_ok_of_good lines vgName lvNames st h
  · exact fun e st' h => reloadlvs_error_field_count lines vgName lvNames st e st' h
  · exact fun h => reloadlvs_error_of_bad lines vgName lvNames st h

/-- Witness for C7: a two-field line forces the `pvs` reload to raise
`InvalidOutputLine` carrying the command name and the line. -/
theorem c7_parser_field_counts_witness :
    ∃ l ∈ ["a|b"], (pyFields l).length ≠ PV_FIELDS_LEN ∧
      ∃ st', reloadpvs ⟨0, ["a|b"]⟩ [] st0 = (.error (.invalidOutputLine "pvs" l), st') :=
  (c7_parser_field_counts ["a|b"] [] [] "vg0" [] st0).2.2.2.2.2.1
    ⟨"a|b", List.mem_cons_self _ _, by decide⟩

/-! ### C8: `[unknown]` rows are skipped (scenario S3) -/

theorem pvsParseLoop_unknown (lines : List String) :
    ∀ pvs upd a b, pvsParseLoop lines pvs upd = (.ok (), a, b) →
      mget upd UNKNOWN = none → mget b UNKNOWN = none := by
  induction lines with
  | nil =>
    intro pvs upd a b h h0
    simp only [pvsParseLoop, Prod.mk.injEq] at h
    obtain ⟨-, -, rfl⟩ := h
    exact h0
  | cons line rest ih =>
    intro pvs upd a b h h0
    cases hp : parsePVLine line with
    | error e =>
      simp [pvsParseLoop, hp, Prod.mk.injEq] at h
    | ok pv =>
      simp only [pvsParseLoop, hp] at h
      by_cases hu : pv.name = UNKNOWN
      · rw [if_pos hu] at h
        exact ih _ _ _ _ h h0
      · rw [if_neg hu] at h
        apply ih _ _ _ _ h
        rw [mget_mset, if_neg (fun hh => hu hh), h0]

theorem reloadpvs_no_unknown (lines : List String) (st : LVMState)
    (upd : List (String × Entry PV)) (st' : LVMState)
    (h : reloadpvs ⟨0, lines⟩ [] st = (.ok upd, st')) :
    mget upd UNKNOWN = none ∧ mget st'.pvs UNKNOWN = none := by
  unfold reloadpvs at h
  rw [if_neg (fun hh => hh rfl)] at h
  rcases hloop : pvsParseLoop lines st.pvs [] with ⟨exc, a, b⟩
  rw [hloop] at h
  cases exc with
  | error e =>
    simp only [Prod.mk.injEq] at h
    exact absurd h.1 (fun hh => Except.noConfusion hh)
  | ok u =>
    obtain ⟨⟩ := u
    simp only [Prod.mk.injEq, List.isEmpty_nil, if_true] at h
    obtain ⟨h1, h2⟩ := h
    have hbu : b = upd := Except.ok.inj h1
    have hb0 : mget b UNKNOWN = none :=
      pvsParseLoop_unknown lines st.pvs [] a b hloop rfl
    have hb : mget upd UNKNOWN = none := by rw [← hbu]; exact hb0
    refine ⟨hb, ?_⟩
    rw [← h2]
    show mget (List.foldl mdel a ((mkeys a).filter (fun n => (mget b n).isNone))) UNKNOWN = none
    rw [mget_foldl_mdel]
    by_cases hmem : UNKNOWN ∈ mkeys a
    · rw [if_pos (List.mem_filter.mpr ⟨hmem, by rw [hb0]; rfl⟩)]
    · rw [if_neg (fun hin => hmem (List.mem_filter.mp hin).1)]
      cases hga : mget a UNKNOWN with
      | none => rfl
      | some v => exact absurd (mem_mkeys_of_mget hga) hmem

theorem vgsGroupLoop_inv (lines : List String) :
    ∀ acc groups, vgsGroupLoop lines acc = .ok groups →
      (∀ p ∈ acc, UNKNOWN ∉ p.2.2) → ∀ p ∈ groups, UNKNOWN ∉ p.2.2 := by
  induction lines with
  | nil =>
    intro acc groups h hinv
    obtain rfl : acc = groups := Except.ok.inj h
    exact hinv
  | cons line rest ih =>
    intro acc groups h hinv
    by_cases hl : (pyFields line).length = VG_FIELDS_LEN
    · simp only [vgsGroupLoop] at h
      rw [if_pos hl] at h
      by_cases hu : (pyFields line).getD 13 "" = UNKNOWN
      · rw [if_pos hu] at h
        exact ih _ _ h hinv
      · rw [if_neg hu] at h
        cases hg : mget acc ((pyFields line).getD 0 "") with
        | none =>
          rw [hg] at h
          refine ih _ _ h ?_
          intro p hp
          rcases List.mem_append.mp hp with hp' | hp'
          · exact hinv p hp'
          · have hpe : p = ((pyFields line).getD 0 "",
                ((pyFields line).take 13, [(pyFields line).getD 13 ""])) := by
              simpa using hp'
            rw [hpe]
            intro hmem
            simp only [List.mem_singleton] at hmem
            exact hu hmem.symm
        | some g =>
          rw [hg] at h
          refine ih _ _ h ?_
          intro p hp
          rcases mem_mset hp with hp' | hp'
          · exact hinv p hp'
          · rw [hp']
            intro hmem
            rcases List.mem_append.mp hmem with hm | hm
            · exact hinv _ (mem_of_mget hg) hm
            · simp only [List.mem_singleton] at hm
              exact hu hm.symm
    · simp only [vgsGroupLoop] at h
      rw [if_neg hl] at h
      exact absurd h (fun hh => Except.noConfusion hh)

theorem vgsBuild_upd (groups : List (String × (List String × List String))) :
    ∀ vgs upd n vg, mget (vgsBuild groups vgs upd).2 n = some vg →
      mget upd n = some vg ∨ ∃ p ∈ groups, vg = VG.fromlvm p.2.1 p.2.2 := by
  induction groups with
  | nil =>
    intro vgs upd n vg h
    exact Or.inl h
  | cons p rest ih =>
    intro vgs upd n vg h
    obtain ⟨pu, pg⟩ := p
    simp only [vgsBuild] at h
    rcases ih _ _ _ _ h with h' | h'
    · rcases mget_mset_cases h' with ⟨-, rfl⟩ | h''
      · exact Or.inr ⟨(pu, pg), List.mem_cons_self _ _, rfl⟩
      · exact Or.inl h''
    · obtain ⟨q, hq, hvq⟩ := h'
      exact Or.inr ⟨q, List.mem_cons_of_mem _ hq, hvq⟩

theorem reloadvgs_pvname_no_unknown (resp : Resp) (vgNames : List String) (st : LVMState)
    (upd : List (String × VG)) (st' : LVMState)
    (h : reloadvgs resp vgNames st = (.ok upd, st')) :
    ∀ n vg, mget upd n = some vg → UNKNOWN ∉ vg.pv_name := by
  unfold reloadvgs at h
  rcases hloop : vgsGroupLoop resp.out [] with e | groups
  · rw [hloop] at h
    simp only [Prod.mk.injEq] at h
    exact absurd h.1 (fun hh => Except.noConfusion hh)
  · rw [hloop] at h
    simp only [Prod.mk.injEq] at h
    intro n vg hget
    have hupd : mget (vgsBuild groups
        (if resp.rc ≠ 0 then
          markUnreadableVgs (if vgNames.isEmpty then mkeys st.vgs else vgNames) st.vgs
        else st.vgs) []).2 n = some vg := by
      rw [← Except.ok.inj h.1] at hget
      exact hget
    rcases vgsBuild_upd groups _ _ _ _ hupd with h' | h'
    · exact absurd h' (by rw [mget_nil]; intro hh; exact Option.noConfusion hh)
    · obtain ⟨p, hp, rfl⟩ := h'
      have hinv := vgsGroupLoop_inv resp.out [] groups hloop (by intro p hp; simp at hp) p hp
      exact hinv

/-- Rows for the concrete S3 run: a good PV row and a `[unknown]` row. -/
def pvRowG : String :=
  "pv-uuid-1|/dev/mapper/pv0|107374182400|vg0|uuid-1|1048576|800|400|2|107374182400|2"

def pvRowU : String :=
  "pv-uuid-2|[unknown]|107374182400|vg0|uuid-1|1048576|800|400|2|107374182400|1"

/-- C8: a successful `pvs` reload never keeps a `[unknown]` row (no
exception, no entry in the returned dict nor in the map afterwards),
and a `vgs` reload never records `[unknown]` among a VG's pv names.
The last two conjuncts run scenario S3 concretely. -/
theorem c8_unknown_rows_skipped (lines vgNames : List String) (st : LVMState) :
    (∀ upd st', reloadpvs ⟨0, lines⟩ [] st = (.ok upd, st') →
        mget upd UNKNOWN = none ∧ mget st'.pvs UNKNOWN = none)
  ∧ (∀ resp upd st', reloadvgs (resp : Resp) vgNames st = (.ok upd, st') →
        ∀ n vg, mget upd n = some vg → UNKNOWN ∉ vg.pv_name)
  ∧ (reloadpvs ⟨0, [pvRowG, pvRowU]⟩ [] st0).1 = .ok [("/dev/mapper/pv0",
      .fresh (PV.fromlvm "pv-uuid-1" "/dev/mapper/pv0" "107374182400" "vg0" "uuid-1"
        "1048576" "800" "400" "2" "107374182400" "2"))]
  ∧ mget ((reloadpvs ⟨0, [pvRowG, pvRowU]⟩ [] st0).2).pvs UNKNOWN = none := by
  refine ⟨?_, ?_, by decide, by decide⟩
  · exact fun upd st' h => reloadpvs_no_unknown lines st upd st' h
  · exact fun resp upd st' h => reloadvgs_pvname_no_unknown resp vgNames st upd st' h

/-- Witness for C8: the reload of one `[unknown]` row succeeds with an
empty updated dict and leaves no `[unknown]` entry. -/
theorem c8_unknown_rows_skipped_witness :
    mget ([] : List (String × Entry PV)) UNKNOWN = none ∧
      mget ({ pvs := [], vgs := [], lvs := [], freshlv := [], stalepv := false,
              stalevg := true, cache_lvs := false } : LVMState).pvs UNKNOWN = none :=
  (c8_unknown_rows_skipped [pvRowU] [] st0).1 []
    { pvs := [], vgs := [], lvs := [], freshlv := [], stalepv := false,
      stalevg := true, cache_lvs := false } (by decide)

/-! ### Numeric conversions

`int(...)` on LVM size strings and the extent arithmetic of
`extendLV`/`reduceLV`.  `vdsm.utils.round` and `vdsm.common.units.MiB`
are imported helpers not under src/.
-/

/-- Decimal digit accumulator for `int(...)`. -/
def pyNatCore : List Char → Nat → Option Nat
  | [], acc => some acc
  | c :: rest, acc =>
    if 48 ≤ c.toNat ∧ c.toNat ≤ 57 then pyNatCore rest (acc * 10 + (c.toNat - 48))
    else none

/-- Python `int(s)` on the nonnegative digit strings LVM emits
(`ValueError` otherwise; signs and surrounding whitespace, which the
trimmed LVM fields never carry, are out of scope). -/
def pyNat (s : String) : Except PyErr Nat :=
  match s.data with
  | [] => .error .valueError
  | l =>
    match pyNatCore l 0 with
    | some n => .ok n
    | none => .error .valueError

/-- Python `a // b`, raising `ZeroDivisionError` on `b == 0`. -/
def pyDiv (a b : Nat) : Except PyErr Nat :=
  if b = 0 then .error .zeroDivisionError else .ok (a / b)

/-- Modelled from the spec: `vdsm.common.units.MiB` (the module is not
under src/) is 2^20 bytes. -/
def MiB : Nat := 1048576

/-- Modelled from the spec: `vdsm.utils.round(n, size)` (the module is
not under src/) rounds `n` up to the next multiple of `size`. -/
def pyRound (n size : Nat) : Except PyErr Nat :=
  if size = 0 then .error .zeroDivisionError else .ok ((n + size - 1) / size * size)

/-- Attribute access `lv.size` on a cache entry: `Stale`/`Unreadable`
entries raise `AttributeError`. -/
def entrySizeStr : Entry LV → Except PyErr String
  | .fresh lv => .ok lv.size
  | e => .error (.attributeError (Entry.nameOf LV.name e))

/-- `lv_extents = int(lv.size) // extent_size`. -/
def lvExtentsOf (lvEnt : Entry LV) (esz : Nat) : Except PyErr Nat := do
  let s ← entrySizeStr lvEnt
  let n ← pyNat s
  pyDiv n esz

/-- `requested_extents = utils.round(size_mb * MiB, extent_size) //
extent_size`. -/
def requestedExtentsOf (size_mb esz : Nat) : Except PyErr Nat := do
  let r ← pyRound (size_mb * MiB) esz
  pyDiv r esz

/-! ### Cache getters and invalidation (lvm.py lines 788-1003)

Every modelled operation takes an oracle `o : Nat → Resp` giving the
outcome of its n-th wrapped LVM command, and threads the next command
index so the caller can see how many commands ran.  The `CacheStats`
hit/miss calls have no further effect and are omitted.
-/

/-- `_fqpvname`: absolute paths pass through, a bare multipath guid is
prefixed with `PV_PREFIX = "/dev/mapper"`. -/
def fqpvname (pv : String) : String :=
  match pv.data with
  | '/' :: _ => pv
  | _ => "/dev/mapper/" ++ pv

/-- `LVMCache.getPv`: cached fresh entry, else scoped `_reloadpvs`. -/
def getPv (o : Nat → Resp) (i : Nat) (pvName : String) (st : LVMState) :
    Except PyErr (Option (Entry PV)) × Nat × LVMState :=
  match mget st.pvs pvName with
  | some e =>
    if e.is_stale then
      match reloadpvs (o i) [pvName] st with
      | (.error er, st1) => (.error er, i + 1, st1)
      | (.ok upd, st1) => (.ok (mget upd pvName), i + 1, st1)
    else (.ok (some e), i, st)
  | none =>
    match reloadpvs (o i) [pvName] st with
    | (.error er, st1) => (.error er, i + 1, st1)
    | (.ok upd, st1) => (.ok (mget upd pvName), i + 1, st1)

/-- Public `getPV`: raise `InaccessiblePhysDev` when the lookup yields
nothing (a `Stale`/`Unreadable` entry is returned as is). -/
def getPV (o : Nat → Resp) (i : Nat) (pvName : String) (st : LVMState) :
    Except PyErr (Entry PV) × Nat × LVMState :=
  match getPv o i (fqpvname pvName) st with
  | (.error e, i1, st1) => (.error e, i1, st1)
  | (.ok none, i1, st1) => (.error (.inaccessiblePhysDev (fqpvname pvName)), i1, st1)
  | (.ok (some e), i1, st1) => (.ok e, i1, st1)

/-- `LVMCache.getVg`: cached fresh entry, else scoped `_reloadvgs`
(whose updated dict holds only parsed `VG` records). -/
def getVg (o : Nat → Resp) (i : Nat) (vgName : String) (st : LVMState) :
    Except PyErr (Option VG) × Nat × LVMState :=
  match mget st.vgs vgName with
  | some (.fresh vg) => (.ok (some vg), i, st)
  | some _ =>
    match reloadvgs (o i) [vgName] st with
    | (.error er, st1) => (.error er, i + 1, st1)
    | (.ok upd, st1) => (.ok (mget upd vgName), i + 1, st1)
  | none =>
    match reloadvgs (o i) [vgName] st with
    | (.error er, st1) => (.error er, i + 1, st1)
    | (.ok upd, st1) => (.ok (mget upd vgName), i + 1, st1)

/-- Public `getVG`: raise `VolumeGroupDoesNotExist` on a failed
lookup. -/
def getVG (o : Nat → Resp) (i : Nat) (vgName : String) (st : LVMState) :
    Except PyErr VG × Nat × LVMState :=
  match getVg o i vgName st with
  | (.error e, i1, st1) => (.error e, i1, st1)
  | (.ok none, i1, st1) => (.error (.volumeGroupDoesNotExist vgName), i1, st1)
  | (.ok (some vg), i1, st1) => (.ok vg, i1, st1)

/-- `LVMCache.getLv` with an LV name: cached non-stale entry, else
reload the whole VG and look the LV up in the updated dict (which may
hold `Unreadable` entries). -/
def getLvOne (o : Nat → Resp) (i : Nat) (vgName lvName : String) (st : LVMState) :
    Except PyErr (Option (Entry LV)) × Nat × LVMState :=
  match mget st.lvs (vgName, lvName) with
  | some e =>
    if e.is_stale then
      match reloadlvs (o i) vgName [] st with
      | (.error er, st1) => (.error er, i + 1, st1)
      | (.ok upd, st1) => (.ok (mget upd (vgName, lvName)), i + 1, st1)
    else (.ok (some e), i, st)
  | none =>
    match reloadlvs (o i) vgName [] st with
    | (.error er, st1) => (.error er, i + 1, st1)
    | (.ok upd, st1) => (.ok (mget upd (vgName, lvName)), i + 1, st1)

/-- `LVMCache._lvs_needs_reload`. -/
def lvs_needs_reload (st : LVMState) (vg_name : String) : Bool :=
  if st.cache_lvs = false then true
  else if vg_name ∈ st.freshlv then
    st.lvs.any (fun p => p.1.1 == vg_name && p.2.is_stale)
  else true

/-- The fresh LVs of a VG among a map's values, in map order
(`[lv for lv in lvs.values() if not lv.is_stale() and lv.vg_name ==
vgName]`). -/
def freshLvsOf (vgName : String) (m : List ((String × String) × Entry LV)) : List LV :=
  m.foldr (fun p acc =>
    match p.2 with
    | .fresh lv => if lv.vg_name == vgName then lv :: acc else acc
    | _ => acc) []

/-- `LVMCache.getLv` without an LV name: reload if needed, then return
only the fresh LVs of the VG. -/
def getLvAll (o : Nat → Resp) (i : Nat) (vgName : String) (st : LVMState) :
    Except PyErr (List LV) × Nat × LVMState :=
  if lvs_needs_reload st vgName then
    match reloadlvs (o i) vgName [] st with
    | (.error er, st1) => (.error er, i + 1, st1)
    | (.ok upd, st1) => (.ok (freshLvsOf vgName upd), i + 1, st1)
  else (.ok (freshLvsOf vgName st.lvs), i, st)

/-- Public `getLV(vgName, lvName)`: raise
`LogicalVolumeDoesNotExistError` when the single lookup yields `None`;
a `Stale`/`Unreadable` entry is truthy and returned. -/
def getLVone (o : Nat → Resp) (i : Nat) (vgName lvName : String) (st : LVMState) :
    Except PyErr (Entry LV) × Nat × LVMState :=
  match getLvOne o i vgName lvName st with
  | (.error e, i1, st1) => (.error e, i1, st1)
  | (.ok none, i1, st1) =>
    (.error (.logicalVolumeDoesNotExistError vgName (some lvName)), i1, st1)
  | (.ok (some e), i1, st1) => (.ok e, i1, st1)

/-- Public `getLV(vgName)`: the empty result list is falsy, so it
raises `LogicalVolumeDoesNotExistError` exactly like a missing single
LV (the message renders `lvName = None`). -/
def getLVall (o : Nat → Resp) (vgName : String) (st : LVMState) :
    Except PyErr (List LV) × Nat × LVMState :=
  match getLvAll o 0 vgName st with
  | (.error e, i1, st1) => (.error e, i1, st1)
  | (.ok lvs, i1, st1) =>
    if lvs.isEmpty then (.error (.logicalVolumeDoesNotExistError vgName none), i1, st1)
    else (.ok lvs, i1, st1)

/-- `LVMCache._invalidatepvs`. -/
def invalidatepvs (pvNames : List String) (st : LVMState) : LVMState :=
  { st with pvs := pvNames.foldl (fun m n => mset m n (.stale n)) st.pvs }

/-- `LVMCache._invalidatevgs`. -/
def invalidatevgs (vgNames : List String) (st : LVMState) : LVMState :=
  { st with vgs := vgNames.foldl (fun m n => mset m n (.stale n)) st.vgs }

/-- Names of the fresh LVs whose record says they belong to the VG
(the iteration of `_invalidatelvs` without explicit names). -/
def lvTargetsOfVg (vgName : String) : List ((String × String) × Entry LV) → List String
  | [] => []
  | p :: rest =>
    match p.2 with
    | .fresh lv =>
      if lv.vg_name == vgName then lv.name :: lvTargetsOfVg vgName rest
      else lvTargetsOfVg vgName rest
    | _ => lvTargetsOfVg vgName rest

/-- `LVMCache._invalidatelvs`: mark the named LVs stale, or every
fresh LV of the VG when no names are given. -/
def invalidatelvs (vgName : String) (lvNames : List String) (st : LVMState) : LVMState :=
  if lvNames.isEmpty then
    let newlvs := (lvTargetsOfVg vgName st.lvs).foldl
      (fun m n => mset m (vgName, n) (.stale n)) st.lvs
    { st with lvs := newlvs }
  else
    { st with lvs := lvNames.foldl (fun m n => mset m (vgName, n) (.stale n)) st.lvs }

/-- `LVMCache._removelvs`: pop the named LVs (or all LVs of the VG). -/
def removelvs (vgName : String) (lvNames : List String) (st : LVMState) : LVMState :=
  let names := if lvNames.isEmpty then lvKeysOfVg vgName st.lvs else lvNames
  { st with lvs := names.foldl (fun m n => mdel m (vgName, n)) st.lvs }

/-! ### Public operations (lvm.py lines 1283-1312, 1601-1713)

The oracle index 0 is the operation's own first wrapped command; the
returned index is the number of LVM commands that were executed.  The
`_isLVActive` checks of `removeLVs` and the `--force`/destination
arguments only influence logging or the command line, not the cache,
and the command line itself is not modelled.
-/

/-- `extendLV(vgName, lvName, size_mb)`. -/
def extendLV (o : Nat → Resp) (vgName lvName : String) (size_mb : Nat) (st : LVMState) :
    Except PyErr Unit × Nat × LVMState :=
  match getVG o 0 vgName st with
  | (.error e, i, st1) => (.error e, i, st1)
  | (.ok vg, i, st1) =>
    match getLVone o i vgName lvName st1 with
    | (.error e, i2, st2) => (.error e, i2, st2)
    | (.ok lvEnt, i2, st2) =>
      match pyNat vg.extent_size with
      | .error e => (.error e, i2, st2)
      | .ok esz =>
        match lvExtentsOf lvEnt esz with
        | .error e => (.error e, i2, st2)
        | .ok lv_extents =>
          match requestedExtentsOf size_mb esz with
          | .error e => (.error e, i2, st2)
          | .ok requested =>
            if requested ≤ lv_extents then (.ok (), i2, st2)
            else
              let r := o i2
              let st3 := invalidatelvs vgName [lvName] (invalidatevgs [vgName] st2)
              if r.rc = 0 then (.ok (), i2 + 1, st3)
              else
                match getLVone o (i2 + 1) vgName lvName st3 with
                | (.error e, i3, st4) => (.error e, i3, st4)
                | (.ok lvEnt2, i3, st4) =>
                  match lvExtentsOf lvEnt2 esz with
                  | .error e => (.error e, i3, st4)
                  | .ok lv_extents2 =>
                    if requested ≤ lv_extents2 then (.ok (), i3, st4)
                    else
                      match getVG o i3 vgName st4 with
                      | (.error e, i4, st5) => (.error e, i4, st5)
                      | (.ok vg2, i4, st5) =>
                        match pyNat vg2.free_count with
                        | .error e => (.error e, i4, st5)
                        | .ok free =>
                          if free < requested - lv_extents2 then
                            (.error (.volumeGroupSizeError free (requested - lv_extents2)),
                              i4, st5)
                          else
                            (.error (.logicalVolumeExtendError vgName lvName size_mb),
                              i4, st5)

/-- `reduceLV(vgName, lvName, size_mb, force)`: on `lvreduce` success
invalidate VG then LV; on failure compare the (possibly reloaded)
sizes and return silently when the LV is already small enough, else
raise (without invalidating). -/
def reduceLV (o : Nat → Resp) (vgName lvName : String) (size_mb : Nat) (_force : Bool)
    (st : LVMState) : Except PyErr Unit × Nat × LVMState :=
  let r := o 0
  if r.rc ≠ 0 then
    match getVG o 1 vgName st with
    | (.error e, i, st1) => (.error e, i, st1)
    | (.ok vg, i, st1) =>
      match getLVone o i vgName lvName st1 with
      | (.error e, i2, st2) => (.error e, i2, st2)
      | (.ok lvEnt, i2, st2) =>
        match pyNat vg.extent_size with
        | .error e => (.error e, i2, st2)
        | .ok esz =>
          match lvExtentsOf lvEnt esz with
          | .error e => (.error e, i2, st2)
          | .ok lv_extents =>
            match requestedExtentsOf size_mb esz with
            | .error e => (.error e, i2, st2)
            | .ok requested =>
              if lv_extents ≤ requested then (.ok (), i2, st2)
              else (.error (.logicalVolumeExtendError vgName lvName size_mb), i2, st2)
  else
    (.ok (), 1, invalidatelvs vgName [lvName] (invalidatevgs [vgName] st))

/-- `movePV(vgName, src_device, dst_devices)`: invalidate the PV,
reload it via `getPV`, skip when nothing is allocated, else run
`pvmove` and invalidate PV, the VG's LVs and the VG even on failure. -/
def movePV (o : Nat → Resp) (vgName src_device : String) (_dst_devices : List String)
    (st : LVMState) : Except PyErr Unit × Nat × LVMState :=
  let pvName := fqpvname src_device
  let st1 := invalidatepvs [pvName] st
  match getPV o 0 pvName st1 with
  | (.error e, i, st2) => (.error e, i, st2)
  | (.ok pvEnt, i, st2) =>
    match pvEnt with
    | .fresh pv =>
      if pv.pe_alloc_count = "0" then (.ok (), i, st2)
      else
        let r := o i
        let st3 := invalidatevgs [vgName] (invalidatelvs vgName [] (invalidatepvs [pvName] st2))
        if r.rc = 0 then (.ok (), i + 1, st3)
        else (.error (.couldNotMovePVData pvName vgName), i + 1, st3)
    | e => (.error (.attributeError (Entry.nameOf PV.name e)), i, st2)

/-- `removeLVs(vgName, lvNames)`: on success drop the LVs and
invalidate the VG; on failure invalidate the LVs and raise. -/
def removeLVs (o : Nat → Resp) (vgName : String) (lvNames : List String) (st : LVMState) :
    Except PyErr Unit × Nat × LVMState :=
  let r := o 0
  if r.rc = 0 then
    (.ok (), 1, invalidatevgs [vgName] (removelvs vgName lvNames st))
  else
    (.error (.cannotRemoveLogicalVolume vgName lvNames), 1, invalidatelvs vgName lvNames st)

/-! ### C10: `getLV(vgName)` on a VG with no LVs -/

/-- A runner oracle whose commands always fail with no output. -/
def oFail : Nat → Resp := fun _ => ⟨5, []⟩

/-- A sample VG record built from the scenario row. -/
def vgDemo : VG :=
  VG.fromlvm ((pyFields vgRow1).take 13) ["/dev/mapper/pv0"]

/-- A cache holding `vg0` fresh with zero LVs, LV caching enabled and
`vg0` marked fresh in `_freshlv`, so the LV lookup uses the cache. -/
def stDemo : LVMState :=
  { pvs := [], vgs := [("vg0", .fresh vgDemo)], lvs := [], freshlv := ["vg0"],
    stalepv := true, stalevg := true, cache_lvs := true }

/-- C10: whenever the underlying `getLv(vg)` lookup returns an empty
list of fresh LVs, the public `getLV(vg)` raises
`LogicalVolumeDoesNotExistError` — the empty list is falsy exactly like
a missing single LV.  The second conjunct runs the case of an existing
VG with zero logical volumes. -/
theorem c10_getLV_empty_vg_raises (o : Nat → Resp) (vgName : String) (st : LVMState)
    (lvs : List LV) (i1 : Nat) (st1 : LVMState)
    (h : getLvAll o 0 vgName st = (.ok lvs, i1, st1)) (he : lvs = []) :
    getLVall o vgName st = (.error (.logicalVolumeDoesNotExistError vgName none), i1, st1)
  ∧ getLVall oFail "vg0" stDemo =
      (.error (.logicalVolumeDoesNotExistError "vg0" none), 0, stDemo) := by
  constructor
  · simp [getLVall, h, he]
  · decide

/-- Witness for C10: `vg0` exists and is fresh in `stDemo` but has no
LVs, and `getLV("vg0")` raises. -/
theorem c10_getLV_empty_vg_raises_witness :
    getLVall oFail "vg0" stDemo =
      (.error (.logicalVolumeDoesNotExistError "vg0" none), 0, stDemo) :=
  (c10_getLV_empty_vg_raises oFail "vg0" stDemo [] 0 stDemo (by decide) rfl).1

/-! ### C3: `extendLV` is a no-op when the LV is already large enough -/

theorem getVg_hit (o : Nat → Resp) (i : Nat) (vgName : String) (st : LVMState) (vg : VG)
    (h : mget st.vgs vgName = some (.fresh vg)) :
    getVg o i vgName st = (.ok (some vg), i, st) := by
  unfold getVg
  rw [h]

theorem getVG_hit (o : Nat → Resp) (i : Nat) (vgName : String) (st : LVMState) (vg : VG)
    (h : mget st.vgs vgName = some (.fresh vg)) :
    getVG o i vgName st = (.ok vg, i, st) := by
  unfold getVG
  rw [getVg_hit o i vgName st vg h]

theorem getLvOne_hit (o : Nat → Resp) (i : Nat) (vgName lvName : String) (st : LVMState)
    (e : Entry LV) (h : mget st.lvs (vgName, lvName) = some e) (hs : e.is_stale = false) :
    getLvOne o i vgName lvName st = (.ok (some e), i, st) := by
  unfold getLvOne
  rw [h]
  simp [hs]

theorem getLVone_hit (o : Nat → Resp) (i : Nat) (vgName lvName : String) (st : LVMState)
    (e : Entry LV) (h : mget st.lvs (vgName, lvName) = some e) (hs : e.is_stale = false) :
    getLVone o i vgName lvName st = (.ok e, i, st) := by
  unfold getLVone
  rw [getLvOne_hit o i vgName lvName st e h hs]

/-- A sample 512 MiB LV in `vg0` (first extent row, active). -/
def lvDemo : LV :=
  LV.fromlvm "lv-uuid-1" "lv0" "vg0" "-wi-a-----" "536870912" "0" "/dev/mapper/pv0(0)" ""

/-- Cache for scenario S5: `vg0` with extent_size 128 MiB and `lv0` of
512 MiB, both fresh. -/
def stExt : LVMState :=
  { pvs := [], vgs := [("vg0", .fresh vgDemo)],
    lvs := [(("vg0", "lv0"), .fresh lvDemo)], freshlv := [],
    stalepv := true, stalevg := true, cache_lvs := false }

/-- C3: when the cached LV's extent count already covers the request
rounded up to whole extents, `extendLV` returns successfully, runs no
LVM command (the returned index 0 counts executed commands, so
`lvextend` is never spawned) and leaves the cache state unchanged.  The
second conjunct runs scenario S5: extent_size 128 MiB, LV 512 MiB,
request 400 MiB. -/
theorem c3_extendLV_idempotent (o : Nat → Resp) (st : LVMState) (vgName lvName : String)
    (size_mb : Nat) (vg : VG) (lv : LV) (esz lv_extents requested : Nat)
    (hvg : mget st.vgs vgName = some (.fresh vg))
    (hlv : mget st.lvs (vgName, lvName) = some (.fresh lv))
    (hesz : pyNat vg.extent_size = .ok esz)
    (hlve : lvExtentsOf (.fresh lv) esz = .ok lv_extents)
    (hreq : requestedExtentsOf size_mb esz = .ok requested)
    (hble : requested ≤ lv_extents) :
    extendLV o vgName lvName size_mb st = (.ok (), 0, st)
  ∧ extendLV oFail "vg0" "lv0" 400 stExt = (.ok (), 0, stExt) := by
  constructor
  · unfold extendLV
    simp only [getVG_hit o 0 vgName st vg hvg,
      getLVone_hit o 0 vgName lvName st (.fresh lv) hlv rfl, hesz, hlve, hreq,
      if_pos hble]
  · decide

/-- Witness for C3 at scenario S5's numbers. -/
theorem c3_extendLV_idempotent_witness :
    extendLV oFail "vg0" "lv0" 400 stExt = (.ok (), 0, stExt) :=
  (c3_extendLV_idempotent oFail stExt "vg0" "lv0" 400 vgDemo lvDemo
    134217728 4 4 (by decide) (by decide) (by decide) (by decide) (by decide)
    (by decide)).1

/-! ### C2: mutating operations leave affected entries stale or removed

`WFlvMap` is the key/record consistency every cache reached through
the engine's own updates enjoys: an entry stored under `(vg, name)`
carries a record with that VG and name.
-/

def WFlvMap (m : List ((String × String) × Entry LV)) : Prop :=
  ∀ vgn lvn lv, mget m (vgn, lvn) = some (.fresh lv) → lv.vg_name = vgn ∧ lv.name = lvn

def WFlvs (st : LVMState) : Prop :=
  WFlvMap st.lvs

/-- A cache entry key: a PV name, a VG name, or a `(vg, lv)` pair. -/
inductive CKey where
  | pvK (name : String)
  | vgK (name : String)
  | lvK (vgName lvName : String)
deriving DecidableEq

/-- The claim's invariant at one key: the entry is gone or `is_stale()`. -/
def staleOrGone (st : LVMState) : CKey → Prop
  | .pvK n => ∀ e, mget st.pvs n = some e → e.is_stale = true
  | .vgK n => ∀ e, mget st.vgs n = some e → e.is_stale = true
  | .lvK v n => ∀ e, mget st.lvs (v, n) = some e → e.is_stale = true

/-- Entries `reduceLV` affects, per the specification's contract: a
successful `lvreduce` changed the LV and the VG's free extents; a
failed one (including the already-reduced early return) changed
nothing. -/
def reduceLVAffected (vgName lvName : String) (rc : Nat) : CKey → Prop :=
  fun k => rc = 0 ∧ (k = .vgK vgName ∨ k = .lvK vgName lvName)

/-- Whether `movePV` reaches the `pvmove` invocation: the reloaded PV
is readable and has allocated extents (otherwise the op skips). -/
def movePVRan (o : Nat → Resp) (src_device : String) (st : LVMState) : Prop :=
  match getPV o 0 (fqpvname src_device) (invalidatepvs [fqpvname src_device] st) with
  | (.ok (.fresh pv), _, _) => pv.pe_alloc_count ≠ "0"
  | _ => False

/-- Entries `movePV` affects, per the specification's contract: once
`pvmove` runs (even unsuccessfully) data may have moved, touching the
source PV, the VG and any of its LVs; the skip path touches nothing. -/
def movePVAffected (o : Nat → Resp) (vgName src_device : String) (st : LVMState) :
    CKey → Prop :=
  fun k => movePVRan o src_device st ∧
    (k = .pvK (fqpvname src_device) ∨ k = .vgK vgName ∨ ∃ n, k = .lvK vgName n)

/-- Entries `removeLVs` affects, per the specification's contract: the
named LVs always (a failed `lvremove` of several LVs may have removed
some), and the VG when the removal succeeded. -/
def removeLVsAffected (vgName : String) (lvNames : List String) (rc : Nat) : CKey → Prop :=
  fun k => (rc = 0 ∧ k = .vgK vgName) ∨ (∃ lv ∈ lvNames, k = .lvK vgName lv)

theorem mget_foldl_mset_pair_nmem {ν : Type} (vgName : String) (g : String → ν)
    (names : List String) (m : List ((String × String) × ν)) (k : String × String)
    (hk : ∀ n ∈ names, (vgName, n) ≠ k) :
    mget (names.foldl (fun acc n => mset acc (vgName, n) (g n)) m) k = mget m k := by
  induction names generalizing m with
  | nil => rfl
  | cons n rest ih =>
    rw [List.foldl_cons, ih _ (fun x hx => hk x (List.mem_cons_of_mem _ hx)), mget_mset,
      if_neg (hk n (List.mem_cons_self _ _))]

theorem mget_foldl_mset_pair_mem {ν : Type} (vgName : String) (g : String → ν)
    (names : List String) (m : List ((String × String) × ν)) (n : String) (hn : n ∈ names) :
    mget (names.foldl (fun acc x => mset acc (vgName, x) (g x)) m) (vgName, n) = some (g n) := by
  induction names generalizing m with
  | nil => cases hn
  | cons x rest ih =>
    rw [List.foldl_cons]
    by_cases hr : n ∈ rest
    · exact ih _ hr
    · rcases List.mem_cons.mp hn with rfl | h'
      · rw [mget_foldl_mset_pair_nmem vgName g rest _ _ ?_, mget_mset, if_pos rfl]
        intro y hy hcontra
        have hyn : y = n := congrArg Prod.snd hcontra
        exact hr (hyn ▸ hy)
      · exact absurd h' hr

theorem mem_lvTargets (vgName : String) (m : List ((String × String) × Entry LV))
    (p : String × String) (lv : LV) (hp : (p, Entry.fresh lv) ∈ m)
    (hv : lv.vg_name = vgName) : lv.name ∈ lvTargetsOfVg vgName m := by
  induction m with
  | nil => cases hp
  | cons q rest ih =>
    rcases List.mem_cons.mp hp with rfl | h'
    · show lv.name ∈
        (if (lv.vg_name == vgName) = true then lv.name :: lvTargetsOfVg vgName rest
         else lvTargetsOfVg vgName rest)
      rw [if_pos (by rw [hv]; exact beq_self_eq_true vgName)]
      exact List.mem_cons_self _ _
    · obtain ⟨qk, qe⟩ := q
      cases qe with
      | fresh lv' =>
        show lv.name ∈
          (if (lv'.vg_name == vgName) = true then lv'.name :: lvTargetsOfVg vgName rest
           else lvTargetsOfVg vgName rest)
        by_cases hb : (lv'.vg_name == vgName) = true
        · rw [if_pos hb]
          exact List.mem_cons_of_mem _ (ih h')
        · rw [if_neg hb]
          exact ih h'
      | stale nn => exact ih h'
      | unreadable nn => exact ih h'

theorem foldl_stale_targets (vgName : String) (m : List ((String × String) × Entry LV))
    (hwf : WFlvMap m) (n : String) :
    ∀ e, mget ((lvTargetsOfVg vgName m).foldl
        (fun acc x => mset acc (vgName, x) (Entry.stale x)) m) (vgName, n) = some e →
      e.is_stale = true := by
  intro e he
  by_cases hn : n ∈ lvTargetsOfVg vgName m
  · rw [mget_foldl_mset_pair_mem vgName _ _ _ n hn] at he
    rw [← Option.some.inj he]
    rfl
  · rw [mget_foldl_mset_pair_nmem vgName _ _ _ _ ?_] at he
    · cases e with
      | fresh lv =>
        obtain ⟨hv, hname⟩ := hwf vgName n lv he
        have : lv.name ∈ lvTargetsOfVg vgName m :=
          mem_lvTargets vgName m _ lv (mem_of_mget he) hv
        rw [hname] at this
        exact absurd this hn
      | stale nn => rfl
      | unreadable nn => rfl
    · intro x hx hcontra
      have hxn : x = n := congrArg Prod.snd hcontra
      exact hn (hxn ▸ hx)

theorem reloadpvs_keeps (resp : Resp) (ns : List String) (st : LVMState) :
    ((reloadpvs resp ns st).2).lvs = st.lvs ∧ ((reloadpvs resp ns st).2).vgs = st.vgs := by
  unfold reloadpvs
  by_cases h : resp.rc ≠ 0
  · rw [if_pos h]
    exact ⟨rfl, rfl⟩
  · rw [if_neg h]
    rcases hp : pvsParseLoop resp.out st.pvs [] with ⟨exc, a, b⟩
    cases exc with
    | error e => exact ⟨rfl, rfl⟩
    | ok u => exact ⟨rfl, rfl⟩

theorem getPv_keeps (o : Nat → Resp) (i : Nat) (pvName : String) (st : LVMState) :
    ((getPv o i pvName st).2.2).lvs = st.lvs ∧ ((getPv o i pvName st).2.2).vgs = st.vgs := by
  have hrk := reloadpvs_keeps (o i) [pvName] st
  unfold getPv
  rcases hrl : reloadpvs (o i) [pvName] st with ⟨exc, st1⟩
  rw [hrl] at hrk
  rcases hm : mget st.pvs pvName with _ | e
  · cases exc with
    | error er => exact hrk
    | ok upd => exact hrk
  · cases e with
    | fresh r => exact ⟨rfl, rfl⟩
    | stale n =>
      cases exc with
      | error er => exact hrk
      | ok upd => exact hrk
    | unreadable n =>
      cases exc with
      | error er => exact hrk
      | ok upd => exact hrk

theorem getPV_keeps (o : Nat → Resp) (i : Nat) (pvName : String) (st : LVMState) :
    ((getPV o i pvName st).2.2).lvs = st.lvs ∧ ((getPV o i pvName st).2.2).vgs = st.vgs := by
  have h := getPv_keeps o i (fqpvname pvName) st
  unfold getPV
  rcases hg : getPv o i (fqpvname pvName) st with ⟨res, i1, st1⟩
  rw [hg] at h
  rcases res with e | oe
  · exact h
  · rcases oe with _ | e
    · exact h
    · exact h

theorem reduceLV_invalidates (o : Nat → Resp) (vgName lvName : String) (size_mb : Nat)
    (force : Bool) (st : LVMState) :
    ∀ k, reduceLVAffected vgName lvName (o 0).rc k →
      staleOrGone ((reduceLV o vgName lvName size_mb force st).2.2) k := by
  intro k hk
  obtain ⟨hrc, hcase⟩ := hk
  have hres : reduceLV o vgName lvName size_mb force st =
      (.ok (), 1, invalidatelvs vgName [lvName] (invalidatevgs [vgName] st)) := by
    simp only [reduceLV]
    rw [if_neg (fun hh => hh hrc)]
  rw [hres]
  rcases hcase with rfl | rfl
  · intro e he
    have he' : mget (mset st.vgs vgName (Entry.stale vgName)) vgName = some e := he
    rw [mget_mset, if_pos rfl] at he'
    rw [← Option.some.inj he']
    rfl
  · intro e he
    have he' : mget (mset st.lvs (vgName, lvName) (Entry.stale lvName)) (vgName, lvName)
        = some e := he
    rw [mget_mset, if_pos rfl] at he'
    rw [← Option.some.inj he']
    rfl

theorem movePV_invalidates (o : Nat → Resp) (vgName src_device : String)
    (dst_devices : List String) (st : LVMState) (hwf : WFlvs st) :
    ∀ k, movePVAffected o vgName src_device st k →
      staleOrGone ((movePV o vgName src_device dst_devices st).2.2) k := by
  intro k hk
  obtain ⟨hran, hcase⟩ := hk
  unfold movePVRan at hran
  rcases hg : getPV o 0 (fqpvname src_device) (invalidatepvs [fqpvname src_device] st)
    with ⟨res, i, st2⟩
  rw [hg] at hran
  have hkeep := getPV_keeps o 0 (fqpvname src_device) (invalidatepvs [fqpvname src_device] st)
  rw [hg] at hkeep
  rcases res with e | ent
  · exact hran.elim
  rcases ent with pv | nn | nn
  · have hres : (movePV o vgName src_device dst_devices st).2.2 =
        invalidatevgs [vgName]
          (invalidatelvs vgName [] (invalidatepvs [fqpvname src_device] st2)) := by
      simp only [movePV, hg]
      rw [if_neg hran]
      by_cases hrc : (o i).rc = 0
      · rw [if_pos hrc]
      · rw [if_neg hrc]
    rw [hres]
    have hlvs2 : st2.lvs = st.lvs := hkeep.1
    rcases hcase with rfl | rfl | ⟨n, rfl⟩
    · intro e he
      have he' : mget (mset st2.pvs (fqpvname src_device)
          (Entry.stale (fqpvname src_device))) (fqpvname src_device) = some e := he
      rw [mget_mset, if_pos rfl] at he'
      rw [← Option.some.inj he']
      rfl
    · intro e he
      have he' : mget (mset st2.vgs vgName (Entry.stale vgName)) vgName = some e := he
      rw [mget_mset, if_pos rfl] at he'
      rw [← Option.some.inj he']
      rfl
    · intro e he
      have hwf2 : WFlvMap st2.lvs := by
        rw [hlvs2]
        exact hwf
      have he' : mget ((lvTargetsOfVg vgName st2.lvs).foldl
          (fun acc x => mset acc (vgName, x) (Entry.stale x)) st2.lvs) (vgName, n)
          = some e := he
      exact foldl_stale_targets vgName st2.lvs hwf2 n e he'
  · exact hran.elim
  · exact hran.elim

theorem removeLVs_invalidates (o : Nat → Resp) (vgName : String) (lvNames : List String)
    (st : LVMState) :
    ∀ k, removeLVsAffected vgName lvNames (o 0).rc k →
      staleOrGone ((removeLVs o vgName lvNames st).2.2) k := by
  intro k hk
  by_cases hrc : (o 0).rc = 0
  · have hres : (removeLVs o vgName lvNames st).2.2 =
        invalidatevgs [vgName] (removelvs vgName lvNames st) := by
      simp only [removeLVs]
      rw [if_pos hrc]
    rw [hres]
    rcases hk with ⟨-, rfl⟩ | ⟨lv, hlv, rfl⟩
    · intro e he
      have he' : mget (mset (removelvs vgName lvNames st).vgs vgName
          (Entry.stale vgName)) vgName = some e := he
      rw [mget_mset, if_pos rfl] at he'
      rw [← Option.some.inj he']
      rfl
    · intro e he
      have hne : lvNames.isEmpty = false := by
        cases lvNames with
        | nil => cases hlv
        | cons a rest => rfl
      have hlvs : (removelvs vgName lvNames st).lvs =
          lvNames.foldl (fun m n => mdel m (vgName, n)) st.lvs := by
        unfold removelvs
        rw [hne]
        rfl
      have he' : mget (lvNames.foldl (fun m n => mdel m (vgName, n)) st.lvs) (vgName, lv)
          = some e := by
        rw [← hlvs]
        exact he
      rw [mget_foldl_mdel_map (fun n => (vgName, n)) lvNames st.lvs (vgName, lv)] at he'
      rw [if_pos ⟨lv, hlv, rfl⟩] at he'
      exact absurd he' (fun hh => Option.noConfusion hh)
  · have hres : (removeLVs o vgName lvNames st).2.2 = invalidatelvs vgName lvNames st := by
      simp only [removeLVs]
      rw [if_neg hrc]
    rw [hres]
    rcases hk with ⟨hrc0, -⟩ | ⟨lv, hlv, rfl⟩
    · exact absurd hrc0 hrc
    · intro e he
      have hne : lvNames.isEmpty = false := by
        cases lvNames with
        | nil => cases hlv
        | cons a rest => rfl
      have hinv : (invalidatelvs vgName lvNames st).lvs =
          lvNames.foldl (fun acc x => mset acc (vgName, x) (Entry.stale x)) st.lvs := by
        unfold invalidatelvs
        rw [hne]
        rfl
      have he' : mget (lvNames.foldl (fun acc x => mset acc (vgName, x) (Entry.stale x))
          st.lvs) (vgName, lv) = some e := by
        rw [← hinv]
        exact he
      rw [mget_foldl_mset_pair_mem vgName _ lvNames st.lvs lv hlv] at he'
      rw [← Option.some.inj he']
      rfl

/-- C2: after `reduceLV`, `movePV` and `removeLVs` return or raise,
every cache entry they affected (per the specification's contract,
encoded by the `...Affected` predicates, which are empty on
`reduceLV`'s already-reduced early return and on `movePV`'s
`pe_alloc_count == "0"` skip path) is `Stale`/`Unreadable` or has been
removed from the cache. -/
theorem c2_mutating_ops_invalidate (o : Nat → Resp) (st : LVMState) (hwf : WFlvs st)
    (vgName lvName src_device : String) (lvNames dst_devices : List String)
    (size_mb : Nat) (force : Bool) :
    (∀ k, reduceLVAffected vgName lvName (o 0).rc k →
        staleOrGone ((reduceLV o vgName lvName size_mb force st).2.2) k)
  ∧ (∀ k, movePVAffected o vgName src_device st k →
        staleOrGone ((movePV o vgName src_device dst_devices st).2.2) k)
  ∧ (∀ k, removeLVsAffected vgName lvNames (o 0).rc k →
        staleOrGone ((removeLVs o vgName lvNames st).2.2) k) :=
  ⟨reduceLV_invalidates o vgName lvName size_mb force st,
   movePV_invalidates o vgName src_device dst_devices st hwf,
   removeLVs_invalidates o vgName lvNames st⟩

/-- A runner oracle whose commands always succeed with no output. -/
def oZero : Nat → Resp := fun _ => ⟨0, []⟩

/-- Witness for C2: a successful `lvreduce` leaves the VG entry stale. -/
theorem c2_mutating_ops_invalidate_witness :
    staleOrGone ((reduceLV oZero "vg0" "lv0" 100 false st0).2.2) (.vgK "vg0") :=
  (c2_mutating_ops_invalidate oZero st0
    (fun _ _ _ h => absurd h (fun hh => Option.noConfusion hh))
    "vg0" "lv0" "pv0" ["lv0"] [] 100 false).1 (.vgK "vg0") ⟨rfl, Or.inl rfl⟩

/-! ### C4: the failure path of `extendLV` -/

theorem mget_singleton {κ ν : Type} [DecidableEq κ] (k : κ) (v : ν) :
    mget [(k, v)] k = some v := by
  rw [mget_cons, if_pos rfl]

theorem reloadlvs_single_row (line : String) (vgName lvName : String) (lv2 : LV)
    (st : LVMState) (hline : parseLVLine line = .ok lv2) (hvg : lv2.vg_name = vgName)
    (hname : lv2.name = lvName) (hseg : lv2.seg_start_pe = "0") :
    ∃ st', reloadlvs ⟨0, [line]⟩ vgName [] st = (.ok [((vgName, lvName), .fresh lv2)], st')
      ∧ mget st'.lvs (vgName, lvName) = some (.fresh lv2)
      ∧ st'.vgs = st.vgs ∧ st'.pvs = st.pvs := by
  have hloop : lvsParseLoop [line] st.lvs [] =
      (.ok (), mset st.lvs (vgName, lvName) (.fresh lv2),
        [((vgName, lvName), .fresh lv2)]) := by
    simp only [lvsParseLoop, hline]
    rw [if_pos hseg, hvg, hname]
    rfl
  unfold reloadlvs
  rw [if_neg (fun hh => hh rfl), hloop]
  refine ⟨_, rfl, ?_, rfl, rfl⟩
  show mget ((List.filter
      (fun n => (mget [((vgName, lvName), Entry.fresh lv2)] (vgName, n)).isNone)
      (lvKeysOfVg vgName (mset st.lvs (vgName, lvName) (.fresh lv2)))).foldl
        (fun m n => mdel m (vgName, n))
        (mset st.lvs (vgName, lvName) (.fresh lv2))) (vgName, lvName)
    = some (.fresh lv2)
  rw [mget_foldl_mdel_map (fun n => (vgName, n))]
  rw [if_neg ?_]
  · rw [mget_mset, if_pos rfl]
  · rintro ⟨n, hn, hpair⟩
    have hne : n = lvName := congrArg Prod.snd hpair
    subst hne
    have hfil := (List.mem_filter.mp hn).2
    rw [mget_singleton] at hfil
    exact Bool.noConfusion hfil

theorem getLVone_reload_single (o : Nat → Resp) (i : Nat) (vgName lvName : String)
    (st : LVMState) (nn : String) (lv2 : LV) (line : String)
    (hm : mget st.lvs (vgName, lvName) = some (.stale nn))
    (ho : o i = ⟨0, [line]⟩)
    (hline : parseLVLine line = .ok lv2) (hvg : lv2.vg_name = vgName)
    (hname : lv2.name = lvName) (hseg : lv2.seg_start_pe = "0") :
    ∃ st', getLVone o i vgName lvName st = (.ok (.fresh lv2), i + 1, st')
      ∧ mget st'.lvs (vgName, lvName) = some (.fresh lv2)
      ∧ st'.vgs = st.vgs ∧ st'.pvs = st.pvs := by
  obtain ⟨st', hrel, hmg, hvgs, hpvs⟩ :=
    reloadlvs_single_row line vgName lvName lv2 st hline hvg hname hseg
  refine ⟨st', ?_, hmg, hvgs, hpvs⟩
  unfold getLVone getLvOne
  simp only [hm, Entry.is_stale, if_true, ho, hrel, mget_singleton]

theorem reloadvgs_single_row (line : String) (vgName : String) (vg2 : VG) (st : LVMState)
    (hlen : (pyFields line).length = VG_FIELDS_LEN)
    (hpv : (pyFields line).getD 13 "" ≠ UNKNOWN)
    (hfrom : VG.fromlvm ((pyFields line).take 13) [(pyFields line).getD 13 ""] = vg2)
    (hname : vg2.name = vgName) :
    ∃ st', reloadvgs ⟨0, [line]⟩ [vgName] st = (.ok [(vgName, vg2)], st')
      ∧ st'.vgs = mset st.vgs vgName (.fresh vg2)
      ∧ st'.lvs = st.lvs ∧ st'.pvs = st.pvs := by
  have hgl : vgsGroupLoop [line] [] = .ok [((pyFields line).getD 0 "",
      ((pyFields line).take 13, [(pyFields line).getD 13 ""]))] := by
    simp only [vgsGroupLoop]
    rw [if_pos hlen, if_neg hpv]
    rfl
  have hbuild : vgsBuild [((pyFields line).getD 0 "",
      ((pyFields line).take 13, [(pyFields line).getD 13 ""]))] st.vgs [] =
      (mset st.vgs vgName (.fresh vg2), [(vgName, vg2)]) := by
    simp only [vgsBuild, hfrom, hname]
    rfl
  have hdel : List.filter (fun n => (mget [(vgName, vg2)] n).isNone) [vgName] = [] := by
    rw [List.filter_cons]
    rw [if_neg ?_]
    · rfl
    · rw [mget_singleton]
      exact fun hh => Bool.noConfusion hh
  unfold reloadvgs
  simp only [hgl, ne_eq, eq_self_iff_true, not_true, if_false, List.isEmpty_cons,
    Bool.false_eq_true, hbuild, hdel, removeStaleVgs]
  exact ⟨_, rfl, rfl, rfl, rfl⟩

theorem getVG_reload_single (o : Nat → Resp) (i : Nat) (vgName : String) (st : LVMState)
    (nn : String) (vg2 : VG) (line : String)
    (hm : mget st.vgs vgName = some (.stale nn))
    (ho : o i = ⟨0, [line]⟩)
    (hlen : (pyFields line).length = VG_FIELDS_LEN)
    (hpv : (pyFields line).getD 13 "" ≠ UNKNOWN)
    (hfrom : VG.fromlvm ((pyFields line).take 13) [(pyFields line).getD 13 ""] = vg2)
    (hname : vg2.name = vgName) :
    ∃ st', getVG o i vgName st = (.ok vg2, i + 1, st') := by
  obtain ⟨st', hrel, -, -, -⟩ := reloadvgs_single_row line vgName vg2 st hlen hpv hfrom hname
  refine ⟨st', ?_⟩
  unfold getVG getVg
  simp only [hm, ho, hrel, mget_singleton]

/-- C4: when `lvextend` fails inside `extendLV`, the VG and LV entries
are invalidated and the LV is reloaded; then either (a) the reloaded LV
already has the requested extents and `extendLV` returns successfully
(the VG entry still stale, the LV entry fresh from the reload), or (b)
the VG is reloaded and its `free_count` decides between
`VolumeGroupSizeError` (not enough free extents) and the generic
`LogicalVolumeExtendError`. -/
theorem c4_extendLV_failure
    (o : Nat → Resp) (st : LVMState) (vgName lvName : String) (size_mb : Nat)
    (vg : VG) (lv : LV) (esz lv_extents requested : Nat)
    (lvLine vgLine : String) (lv2 : LV) (vg2 : VG) (lv_extents2 free : Nat)
    (hvg : mget st.vgs vgName = some (.fresh vg))
    (hlv : mget st.lvs (vgName, lvName) = some (.fresh lv))
    (hesz : pyNat vg.extent_size = .ok esz)
    (hlve : lvExtentsOf (.fresh lv) esz = .ok lv_extents)
    (hreq : requestedExtentsOf size_mb esz = .ok requested)
    (hneed : lv_extents < requested)
    (hrc : (o 0).rc ≠ 0)
    (ho1 : o 1 = ⟨0, [lvLine]⟩)
    (hline : parseLVLine lvLine = .ok lv2) (hvg2n : lv2.vg_name = vgName)
    (hname2 : lv2.name = lvName) (hseg : lv2.seg_start_pe = "0")
    (hlve2 : lvExtentsOf (.fresh lv2) esz = .ok lv_extents2)
    (ho2 : o 2 = ⟨0, [vgLine]⟩)
    (hvlen : (pyFields vgLine).length = VG_FIELDS_LEN)
    (hvpv : (pyFields vgLine).getD 13 "" ≠ UNKNOWN)
    (hvfrom : VG.fromlvm ((pyFields vgLine).take 13) [(pyFields vgLine).getD 13 ""] = vg2)
    (hvname : vg2.name = vgName)
    (hfree : pyNat vg2.free_count = .ok free) :
    (requested ≤ lv_extents2 →
      ∃ st', extendLV o vgName lvName size_mb st = (.ok (), 2, st')
        ∧ mget st'.vgs vgName = some (.stale vgName)
        ∧ mget st'.lvs (vgName, lvName) = some (.fresh lv2))
  ∧ (lv_extents2 < requested → free < requested - lv_extents2 →
      (extendLV o vgName lvName size_mb st).1
        = .error (.volumeGroupSizeError free (requested - lv_extents2)))
  ∧ (lv_extents2 < requested → ¬ free < requested - lv_extents2 →
      (extendLV o vgName lvName size_mb st).1
        = .error (.logicalVolumeExtendError vgName lvName size_mb)) := by
  have hm3 : mget (invalidatelvs vgName [lvName] (invalidatevgs [vgName] st)).lvs
      (vgName, lvName) = some (.stale lvName) := by
    show mget (mset st.lvs (vgName, lvName) (Entry.stale lvName)) (vgName, lvName)
      = some (Entry.stale lvName)
    rw [mget_mset, if_pos rfl]
  obtain ⟨st4, hget2, hmg4, hvgs4, hpvs4⟩ :=
    getLVone_reload_single o 1 vgName lvName
      (invalidatelvs vgName [lvName] (invalidatevgs [vgName] st)) lvName lv2 lvLine
      hm3 ho1 hline hvg2n hname2 hseg
  have hm4 : mget st4.vgs vgName = some (.stale vgName) := by
    rw [hvgs4]
    show mget (mset st.vgs vgName (Entry.stale vgName)) vgName = some (Entry.stale vgName)
    rw [mget_mset, if_pos rfl]
  obtain ⟨st5, hgetvg⟩ :=
    getVG_reload_single o 2 vgName st4 vgName vg2 vgLine hm4 ho2 hvlen hvpv hvfrom hvname
  refine ⟨?_, ?_, ?_⟩
  · intro hle
    refine ⟨st4, ?_, hm4, hmg4⟩
    simp only [extendLV, getVG_hit o 0 vgName st vg hvg,
      getLVone_hit o 0 vgName lvName st (.fresh lv) hlv rfl, hesz, hlve, hreq,
      if_neg (Nat.not_le.mpr hneed), if_neg hrc, Nat.zero_add, hget2, hlve2,
      if_pos hle]
  · intro h2 hfl
    simp only [extendLV, getVG_hit o 0 vgName st vg hvg,
      getLVone_hit o 0 vgName lvName st (.fresh lv) hlv rfl, hesz, hlve, hreq,
      if_neg (Nat.not_le.mpr hneed), if_neg hrc, Nat.zero_add, hget2,
      show (1 + 1 : Nat) = 2 from rfl, hlve2, if_neg (Nat.not_le.mpr h2), hgetvg,
      hfree, if_pos hfl]
  · intro h2 hfl
    simp only [extendLV, getVG_hit o 0 vgName st vg hvg,
      getLVone_hit o 0 vgName lvName st (.fresh lv) hlv rfl, hesz, hlve, hreq,
      if_neg (Nat.not_le.mpr hneed), if_neg hrc, Nat.zero_add, hget2,
      show (1 + 1 : Nat) = 2 from rfl, hlve2, if_neg (Nat.not_le.mpr h2), hgetvg,
      hfree, if_neg hfl]

/-- A 128 MiB LV in `vg0`, the pre-extension state of the C4 witness. -/
def lvSmall : LV :=
  LV.fromlvm "lv-uuid-1" "lv0" "vg0" "-wi-a-----" "134217728" "0" "/dev/mapper/pv0(0)" ""

/-- The `lvs` row the C4 witness reload returns (the LV as another
host extended it, 512 MiB). -/
def lvRowC4 : String :=
  "lv-uuid-1|lv0|vg0|-wi-a-----|536870912|0|/dev/mapper/pv0(0)|"

/-- Oracle for the C4 witness: `lvextend` fails, then the `lvs` and
`vgs` reloads succeed with one row each. -/
def oC4 : Nat → Resp
  | 0 => ⟨5, []⟩
  | 1 => ⟨0, [lvRowC4]⟩
  | 2 => ⟨0, [vgRow1]⟩
  | _ => ⟨5, []⟩

/-- Cache for the C4 witness: `vg0` fresh, `lv0` fresh at 1 extent. -/
def stC4 : LVMState :=
  { pvs := [], vgs := [("vg0", .fresh vgDemo)],
    lvs := [(("vg0", "lv0"), .fresh lvSmall)], freshlv := [],
    stalepv := true, stalevg := true, cache_lvs := false }

/-- Witness for C4: a failed `lvextend` of `lv0` to 300 MiB followed by
a reload showing 4 extents ends in success with the VG stale and the LV
fresh. -/
theorem c4_extendLV_failure_witness :
    ∃ st', extendLV oC4 "vg0" "lv0" 300 stC4 = (.ok (), 2, st')
      ∧ mget st'.vgs "vg0" = some (.stale "vg0")
      ∧ mget st'.lvs ("vg0", "lv0") = some (.fresh lvDemo) :=
  (c4_extendLV_failure oC4 stC4 "vg0" "lv0" 300 vgDemo lvSmall 134217728 1 3
    lvRowC4 vgRow1 lvDemo vgDemo 4 400 (by decide) (by decide) (by decide)
    (by decide) (by decide) (by decide) (by decide) (by decide) (by decide)
    (by decide) (by decide) (by decide) (by decide) (by decide) (by decide)
    (by decide) (by decide) (by decide) (by decide)).1 (by decide)

/-! ### C1: the `LVMCache.cmd` retry ladder (lvm.py lines 411-413, 489-539)

The runner is an oracle `Nat → RunOut` giving the outcome of the k-th
subprocess invocation.  The two rendered command lines (specific filter
and rebuilt wider filter) are opaque inputs, since the filter comes
from the external multipath enumeration; the ladder only compares them
for equality, exactly as the source compares `wider_cmd != full_cmd`.
The middle component of the result counts runner invocations
(`tries`), and the last component lists the `time.sleep` delays in
seconds, in order.
-/

def READ_ONLY_RETRIES : Nat := 4

def RETRY_DELAY : ℚ := 1 / 10

def RETRY_BACKUP_OFF : ℚ := 2

/-- One runner invocation's outcome: `(rc, out, err)`. -/
structure RunOut where
  rc : Nat
  out : List String
  err : List String
deriving DecidableEq

/-- Stage 3 of `cmd`: `for retry in range(1, READ_ONLY_RETRIES + 1)`:
sleep `delay`, double it, re-run; return on the first `rc == 0`. -/
def roRetryLoop (runner : Nat → RunOut) (last : RunOut) (calls : Nat) (delay : ℚ) :
    Nat → RunOut × Nat × List ℚ
  | 0 => (last, calls, [])
  | n + 1 =>
    let r := runner calls
    if r.rc = 0 then (r, calls + 1, [delay])
    else
      let res := roRetryLoop runner r (calls + 1) (delay * RETRY_BACKUP_OFF) n
      (res.1, res.2.1, delay :: res.2.2)

/-- `LVMCache.cmd`: specific-filter attempt, wider retry only when the
rebuilt command differs, then the read-only retry loop only when the
last `rc` is nonzero and the engine is read-only. -/
def cmdLadder (runner : Nat → RunOut) (read_only : Bool) (full_cmd wider_cmd : List String) :
    RunOut × Nat × List ℚ :=
  let r1 := runner 0
  if r1.rc = 0 then (r1, 1, [])
  else if wider_cmd ≠ full_cmd then
    let r2 := runner 1
    if r2.rc = 0 then (r2, 2, [])
    else if r2.rc ≠ 0 ∧ read_only = true then
      roRetryLoop runner r2 2 RETRY_DELAY READ_ONLY_RETRIES
    else (r2, 2, [])
  else if r1.rc ≠ 0 ∧ read_only = true then
    roRetryLoop runner r1 1 RETRY_DELAY READ_ONLY_RETRIES
  else (r1, 1, [])

/-- The ladder when the wider command differs from the first. -/
def cmdLadderW (runner : Nat → RunOut) (read_only : Bool) : RunOut × Nat × List ℚ :=
  let r1 := runner 0
  if r1.rc = 0 then (r1, 1, [])
  else
    let r2 := runner 1
    if r2.rc = 0 then (r2, 2, [])
    else if r2.rc ≠ 0 ∧ read_only = true then
      roRetryLoop runner r2 2 RETRY_DELAY READ_ONLY_RETRIES
    else (r2, 2, [])

/-- The ladder when the wider command equals the first (stage 2 skipped). -/
def cmdLadderS (runner : Nat → RunOut) (read_only : Bool) : RunOut × Nat × List ℚ :=
  let r1 := runner 0
  if r1.rc = 0 then (r1, 1, [])
  else if r1.rc ≠ 0 ∧ read_only = true then
    roRetryLoop runner r1 1 RETRY_DELAY READ_ONLY_RETRIES
  else (r1, 1, [])

/-- A deterministic runner failing with rc 5 until its N-th
invocation, which succeeds (invocations are counted from 1). -/
def failUntil (N : Nat) : Nat → RunOut :=
  fun k => if N ≤ k + 1 then ⟨0, [], []⟩ else ⟨5, [], []⟩

/-- The `0.1 · 2^k` sleep schedule of the read-only retry loop. -/
def RO_SCHEDULE : List ℚ :=
  [RETRY_DELAY, RETRY_DELAY * RETRY_BACKUP_OFF,
   RETRY_DELAY * RETRY_BACKUP_OFF * RETRY_BACKUP_OFF,
   RETRY_DELAY * RETRY_BACKUP_OFF * RETRY_BACKUP_OFF * RETRY_BACKUP_OFF]

theorem cmdLadder_of_ne (r : Nat → RunOut) (ro : Bool) (c₁ c₂ : List String)
    (hne : c₂ ≠ c₁) : cmdLadder r ro c₁ c₂ = cmdLadderW r ro := by
  simp only [cmdLadder, cmdLadderW]
  rw [if_pos hne]

theorem cmdLadder_of_eq (r : Nat → RunOut) (ro : Bool) (c₁ : List String) :
    cmdLadder r ro c₁ c₁ = cmdLadderS r ro := by
  simp only [cmdLadder, cmdLadderS]
  rw [if_neg (show ¬(c₁ ≠ c₁) from fun hh => hh rfl)]

theorem roRetryLoop_congr (r r' : Nat → RunOut) :
    ∀ (n : Nat) (last : RunOut) (calls : Nat) (delay : ℚ),
      (∀ k, calls ≤ k → k < calls + n → r k = r' k) →
      roRetryLoop r last calls delay n = roRetryLoop r' last calls delay n := by
  intro n
  induction n with
  | zero => intro last calls delay h; rfl
  | succ m ih =>
    intro last calls delay h
    have hc : r calls = r' calls := h calls (Nat.le_refl calls) (by omega)
    simp only [roRetryLoop, hc]
    rw [ih (r' calls) (calls + 1) (delay * RETRY_BACKUP_OFF)
      (fun k hk1 hk2 => h k (by omega) (by omega))]

theorem cmdLadderW_congr (r r' : Nat → RunOut) (ro : Bool)
    (h : ∀ k, k < 2 + READ_ONLY_RETRIES → r k = r' k) :
    cmdLadderW r ro = cmdLadderW r' ro := by
  simp only [cmdLadderW]
  rw [h 0 (by decide), h 1 (by decide),
    roRetryLoop_congr r r' READ_ONLY_RETRIES _ 2 RETRY_DELAY
      (fun k hk1 hk2 => h k (by exact hk2))]

theorem cmdLadderS_congr (r r' : Nat → RunOut) (ro : Bool)
    (h : ∀ k, k < 1 + READ_ONLY_RETRIES → r k = r' k) :
    cmdLadderS r ro = cmdLadderS r' ro := by
  simp only [cmdLadderS]
  rw [h 0 (by decide),
    roRetryLoop_congr r r' READ_ONLY_RETRIES _ 1 RETRY_DELAY
      (fun k hk1 hk2 => h k (by exact hk2))]

theorem ladderW_failUntil (N : Nat) (hN : 1 ≤ N) :
    ((cmdLadderW (failUntil N) true).1.rc = 0 ↔ N ≤ 2 + READ_ONLY_RETRIES)
    ∧ (cmdLadderW (failUntil N) true).2.1 = min N (2 + READ_ONLY_RETRIES)
    ∧ (cmdLadderW (failUntil N) true).2.2 = RO_SCHEDULE.take (N - 2) := by
  by_cases h6 : N ≤ 6
  · interval_cases N
    · exact ⟨by decide, by decide, rfl⟩
    · exact ⟨by decide, by decide, rfl⟩
    · exact ⟨by decide, by decide, rfl⟩
    · exact ⟨by decide, by decide, rfl⟩
    · exact ⟨by decide, by decide, rfl⟩
    · exact ⟨by decide, by decide, rfl⟩
  · have hcong : cmdLadderW (failUntil N) true = cmdLadderW (failUntil 7) true := by
      apply cmdLadderW_congr
      intro k hk
      have hR : READ_ONLY_RETRIES = 4 := rfl
      unfold failUntil
      rw [if_neg (by omega), if_neg (by omega)]
    rw [hcong]
    refine ⟨?_, ?_, ?_⟩
    · constructor
      · intro hh
        exact absurd hh (by decide)
      · intro hh
        have hR : READ_ONLY_RETRIES = 4 := rfl
        omega
    · have hR : READ_ONLY_RETRIES = 4 := rfl
      have hmin : min N (2 + READ_ONLY_RETRIES) = 6 := by
        rw [hR]
        omega
      rw [hmin]
      decide
    · have hlen : RO_SCHEDULE.length ≤ N - 2 := by
        have : RO_SCHEDULE.length = 4 := rfl
        omega
      rw [List.take_of_length_le hlen]
      rfl

theorem ladderW_noro (N : Nat) (hN : 1 ≤ N) :
    ((cmdLadderW (failUntil N) false).1.rc = 0 ↔ N ≤ 2)
    ∧ (cmdLadderW (failUntil N) false).2.2 = [] := by
  by_cases h6 : N ≤ 6
  · interval_cases N
    · exact ⟨by decide, rfl⟩
    · exact ⟨by decide, rfl⟩
    · exact ⟨by decide, rfl⟩
    · exact ⟨by decide, rfl⟩
    · exact ⟨by decide, rfl⟩
    · exact ⟨by decide, rfl⟩
  · have hcong : cmdLadderW (failUntil N) false = cmdLadderW (failUntil 7) false := by
      apply cmdLadderW_congr
      intro k hk
      have hR : READ_ONLY_RETRIES = 4 := rfl
      unfold failUntil
      rw [if_neg (by omega), if_neg (by omega)]
    rw [hcong]
    refine ⟨?_, rfl⟩
    constructor
    · intro hh
      exact absurd hh (by decide)
    · intro hh
      omega

theorem ladderS_failUntil (N : Nat) (hN : 1 ≤ N) :
    ((cmdLadderS (failUntil N) true).1.rc = 0 ↔ N ≤ 1 + READ_ONLY_RETRIES)
    ∧ (cmdLadderS (failUntil N) true).2.1 = min N (1 + READ_ONLY_RETRIES) := by
  by_cases h5 : N ≤ 5
  · interval_cases N
    · exact ⟨by decide, by decide⟩
    · exact ⟨by decide, by decide⟩
    · exact ⟨by decide, by decide⟩
    · exact ⟨by decide, by decide⟩
    · exact ⟨by decide, by decide⟩
  · have hcong : cmdLadderS (failUntil N) true = cmdLadderS (failUntil 6) true := by
      apply cmdLadderS_congr
      intro k hk
      have hR : READ_ONLY_RETRIES = 4 := rfl
      unfold failUntil
      rw [if_neg (by omega), if_neg (by omega)]
    rw [hcong]
    refine ⟨?_, ?_⟩
    · constructor
      · intro hh
        exact absurd hh (by decide)
      · intro hh
        have hR : READ_ONLY_RETRIES = 4 := rfl
        omega
    · have hR : READ_ONLY_RETRIES = 4 := rfl
      have hmin : min N (1 + READ_ONLY_RETRIES) = 5 := by
        rw [hR]
        omega
      rw [hmin]
      decide

/-- C1: with a deterministic runner that first succeeds on its N-th
invocation, `cmd` (1) in read-only mode with a differing wider command
succeeds iff N is within the two filter attempts plus
`READ_ONLY_RETRIES` read-only retries, runs `min N 6` commands and
sleeps the `0.1 · 2^k` prefix schedule; (2) outside read-only mode it
never sleeps and succeeds iff N ≤ 2; (3) when the wider command equals
the first it is run only once, so success needs N within 1 +
`READ_ONLY_RETRIES`.  The last conjuncts pin the constants: delays
0.1, 0.2, 0.4, 0.8 seconds, `READ_ONLY_RETRIES = 4`, `RETRY_DELAY =
0.1`, `RETRY_BACKUP_OFF = 2`. -/
theorem c1_cmd_retry_ladder (N : Nat) (hN : 1 ≤ N) (c₁ c₂ : List String) (hne : c₂ ≠ c₁) :
    (((cmdLadder (failUntil N) true c₁ c₂).1.rc = 0 ↔ N ≤ 2 + READ_ONLY_RETRIES)
      ∧ (cmdLadder (failUntil N) true c₁ c₂).2.1 = min N (2 + READ_ONLY_RETRIES)
      ∧ (cmdLadder (failUntil N) true c₁ c₂).2.2 = RO_SCHEDULE.take (N - 2))
  ∧ (((cmdLadder (failUntil N) false c₁ c₂).1.rc = 0 ↔ N ≤ 2)
      ∧ (cmdLadder (failUntil N) false c₁ c₂).2.2 = [])
  ∧ (((cmdLadder (failUntil N) true c₁ c₁).1.rc = 0 ↔ N ≤ 1 + READ_ONLY_RETRIES)
      ∧ (cmdLadder (failUntil N) true c₁ c₁).2.1 = min N (1 + READ_ONLY_RETRIES))
  ∧ RO_SCHEDULE = [1 / 10, 2 / 10, 4 / 10, 8 / 10]
  ∧ READ_ONLY_RETRIES = 4 ∧ RETRY_DELAY = 1 / 10 ∧ RETRY_BACKUP_OFF = 2 := by
  rw [cmdLadder_of_ne (failUntil N) true c₁ c₂ hne,
    cmdLadder_of_ne (failUntil N) false c₁ c₂ hne,
    cmdLadder_of_eq (failUntil N) true c₁]
  refine ⟨ladderW_failUntil N hN, ladderW_noro N hN, ladderS_failUntil N hN, ?_, rfl, rfl, rfl⟩
  show RO_SCHEDULE = [1 / 10, 2 / 10, 4 / 10, 8 / 10]
  norm_num [RO_SCHEDULE, RETRY_DELAY, RETRY_BACKUP_OFF]

/-- Witness for C1: with N = 3, read-only mode and a differing wider
command, the third invocation succeeds after one sleep of 0.1 s. -/
theorem c1_cmd_retry_ladder_witness :
    (cmdLadder (failUntil 3) true ["lvs"] ["lvs", "wide"]).2.2 = RO_SCHEDULE.take (3 - 2) :=
  ((c1_cmd_retry_ladder 3 (by decide) ["lvs"] ["lvs", "wide"] (by decide)).1).2.2

/-! ### C9: `set_read_only` drains running commands (lvm.py lines 443-452)

`set_read_only` takes `self._lock.exclusive` and flips
`self._read_only` only when the value changes, while every command
runs under `self._lock.shared` (lvm.py line 500).  The lock itself
comes from `vdsm.storage.rwlock`, which is not part of this tree, so
the lock is modelled from the spec as a trace machine.
-/

/-- Modelled from the spec: an event on the cache's reader-writer
lock; `tid` identifies the thread (shared holders are the in-flight
`cmd` calls, the exclusive holder is `set_read_only`). -/
inductive LockEvent where
  | acqShared (tid : Nat)
  | relShared (tid : Nat)
  | acqExcl (tid : Nat)
  | relExcl (tid : Nat)
deriving DecidableEq, Repr

/-- Modelled from the spec: the lock's state — the multiset of shared
holders and the exclusive holder, if any. -/
structure RWState where
  holders : List Nat
  excl : Option Nat
deriving DecidableEq, Repr

def rwInit : RWState := ⟨[], none⟩

/-- Modelled from the spec: one lock transition.  A shared acquire
waits (no transition) while the writer holds the lock; an exclusive
acquire waits until every shared holder has released; releases must
match a held lock. -/
def rwStep : RWState → LockEvent → Option RWState
  | ⟨holders, none⟩, .acqShared t => some ⟨t :: holders, none⟩
  | ⟨holders, none⟩, .acqExcl t =>
    if holders.isEmpty then some ⟨holders, some t⟩ else none
  | ⟨holders, e⟩, .relShared t =>
    if t ∈ holders then some ⟨holders.erase t, e⟩ else none
  | ⟨holders, some t'⟩, .relExcl t =>
    if t = t' then some ⟨holders, none⟩ else none
  | _, _ => none

/-- Run a trace of lock events from a state; `none` if any event is
not enabled. -/
def runFrom (s : RWState) : List LockEvent → Option RWState
  | [] => some s
  | e :: rest =>
    match rwStep s e with
    | none => none
    | some s' => runFrom s' rest

def countAcqShared (t : Nat) : List LockEvent → Nat
  | [] => 0
  | LockEvent.acqShared u :: rest => (if u = t then 1 else 0) + countAcqShared t rest
  | _ :: rest => countAcqShared t rest

def countRelShared (t : Nat) : List LockEvent → Nat
  | [] => 0
  | LockEvent.relShared u :: rest => (if u = t then 1 else 0) + countRelShared t rest
  | _ :: rest => countRelShared t rest

/-- Occurrence count of a thread among the shared holders. -/
def natCount (t : Nat) : List Nat → Nat
  | [] => 0
  | u :: rest => (if u = t then 1 else 0) + natCount t rest

/-- The body of `set_read_only` under the exclusive lock (lvm.py
lines 449-452): the flag is written, and commands are marked for
retry, only when the value changes. -/
def set_read_only_update (current value : Bool) : Bool × Bool :=
  if current ≠ value then (value, true) else (current, false)

theorem natCount_pos_of_mem (t : Nat) (l : List Nat) (h : t ∈ l) : 1 ≤ natCount t l := by
  induction l with
  | nil => cases h
  | cons a rest ih =>
    simp only [natCount]
    cases h with
    | head => simp
    | tail _ h' =>
      have := ih h'
      by_cases hat : a = t
      · rw [if_pos hat]; omega
      · rw [if_neg hat]; omega

theorem natCount_erase (u t : Nat) (l : List Nat) (h : u ∈ l) :
    natCount t (l.erase u) + (if u = t then 1 else 0) = natCount t l := by
  induction l with
  | nil => cases h
  | cons a rest ih =>
    by_cases hau : a = u
    · subst hau
      rw [List.erase_cons_head]
      simp only [natCount]
      omega
    · rw [List.erase_cons, if_neg (show ¬((a == u) = true) by simp [hau])]
      simp only [natCount]
      have h' : u ∈ rest := List.mem_of_ne_of_mem (fun hh => hau hh.symm) h
      have := ih h'
      omega

/-- Shared-lock balance: along any valid trace, acquisitions minus
releases of thread `t` equal the change in its holder count. -/
theorem runFrom_count (tr : List LockEvent) :
    ∀ (s s' : RWState), runFrom s tr = some s' → ∀ t : Nat,
      natCount t s'.holders + countRelShared t tr
        = natCount t s.holders + countAcqShared t tr := by
  induction tr with
  | nil =>
    intro s s' h t
    have hs : s = s' := Option.some.inj h
    subst hs
    rfl
  | cons e rest ih =>
    intro s s' h t
    obtain ⟨hold, exc⟩ := s
    cases hstep : rwStep ⟨hold, exc⟩ e with
    | none =>
      simp only [runFrom, hstep] at h
      exact Option.noConfusion h
    | some s1 =>
      simp only [runFrom, hstep] at h
      have hrec := ih s1 s' h t
      cases e with
      | acqShared u =>
        cases exc with
        | none =>
          have hs1 : RWState.mk (u :: hold) none = s1 := Option.some.inj hstep
          subst hs1
          simp only [natCount, countAcqShared, countRelShared] at hrec ⊢
          by_cases hut : u = t
          · rw [if_pos hut] at hrec ⊢; omega
          · rw [if_neg hut] at hrec ⊢; omega
        | some x =>
          exact Option.noConfusion (show (Option.none : Option RWState) = some s1 from hstep)
      | relShared u =>
        cases exc with
        | none =>
          by_cases hm : u ∈ hold
          · have hs1 : RWState.mk (hold.erase u) none = s1 := by
              have hstep' : (if u ∈ hold then some (RWState.mk (hold.erase u) none)
                  else none) = some s1 := hstep
              rw [if_pos hm] at hstep'
              exact Option.some.inj hstep'
            subst hs1
            have her := natCount_erase u t hold hm
            simp only [countAcqShared, countRelShared] at hrec ⊢
            by_cases hut : u = t
            · rw [if_pos hut] at her ⊢; omega
            · rw [if_neg hut] at her ⊢; omega
          · have hstep' : (if u ∈ hold then some (RWState.mk (hold.erase u) none)
                else none) = some s1 := hstep
            rw [if_neg hm] at hstep'
            exact Option.noConfusion hstep'
        | some x =>
          by_cases hm : u ∈ hold
          · have hs1 : RWState.mk (hold.erase u) (some x) = s1 := by
              have hstep' : (if u ∈ hold then some (RWState.mk (hold.erase u) (some x))
                  else none) = some s1 := hstep
              rw [if_pos hm] at hstep'
              exact Option.some.inj hstep'
            subst hs1
            have her := natCount_erase u t hold hm
            simp only [countAcqShared, countRelShared] at hrec ⊢
            by_cases hut : u = t
            · rw [if_pos hut] at her ⊢; omega
            · rw [if_neg hut] at her ⊢; omega
          · have hstep' : (if u ∈ hold then some (RWState.mk (hold.erase u) (some x))
                else none) = some s1 := hstep
            rw [if_neg hm] at hstep'
            exact Option.noConfusion hstep'
      | acqExcl u =>
        cases exc with
        | none =>
          by_cases hemp : hold.isEmpty
          · have hs1 : RWState.mk hold (some u) = s1 := by
              have hstep' : (if hold.isEmpty then some (RWState.mk hold (some u))
                  else none) = some s1 := hstep
              rw [if_pos hemp] at hstep'
              exact Option.some.inj hstep'
            subst hs1
            simpa only [countAcqShared, countRelShared] using hrec
          · have hstep' : (if hold.isEmpty then some (RWState.mk hold (some u))
                else none) = some s1 := hstep
            rw [if_neg hemp] at hstep'
            exact Option.noConfusion hstep'
        | some x =>
          exact Option.noConfusion (show (Option.none : Option RWState) = some s1 from hstep)
      | relExcl u =>
        cases exc with
        | none =>
          exact Option.noConfusion (show (Option.none : Option RWState) = some s1 from hstep)
        | some x =>
          by_cases hux : u = x
          · have hs1 : RWState.mk hold none = s1 := by
              have hstep' : (if u = x then some (RWState.mk hold none)
                  else none) = some s1 := hstep
              rw [if_pos hux] at hstep'
              exact Option.some.inj hstep'
            subst hs1
            simpa only [countAcqShared, countRelShared] using hrec
          · have hstep' : (if u = x then some (RWState.mk hold none)
                else none) = some s1 := hstep
            rw [if_neg hux] at hstep'
            exact Option.noConfusion hstep'

theorem runFrom_append (a : List LockEvent) :
    ∀ (b : List LockEvent) (s : RWState),
      runFrom s (a ++ b) = (runFrom s a).bind (fun s1 => runFrom s1 b) := by
  induction a with
  | nil => intro b s; rfl
  | cons e rest ih =>
    intro b s
    simp only [List.cons_append, runFrom]
    cases hstep : rwStep s e with
    | none => rfl
    | some s1 => exact ih b s1

/-- C9: `set_read_only` waits for all running commands to drain.
Formally: along any valid lock trace in which the writer's exclusive
acquisition succeeds, every thread that acquired the shared lock
before that point has released it the same number of times — no
command is still in flight when the mode flips.  Moreover the
flag update under the lock sets the new value, and rebuilds the
read-only command list exactly when the value changed. -/
theorem c9_set_read_only_drains (pre post : List LockEvent) (w : Nat) (s' : RWState)
    (h : runFrom rwInit (pre ++ LockEvent.acqExcl w :: post) = some s')
    (current value : Bool) :
    (∀ t, countAcqShared t pre = countRelShared t pre)
    ∧ (set_read_only_update current value).1 = value
    ∧ ((set_read_only_update current value).2 = true ↔ current ≠ value) := by
  refine ⟨?_, ?_, ?_⟩
  · intro t
    rw [runFrom_append] at h
    cases hpre : runFrom rwInit pre with
    | none =>
      rw [hpre] at h
      exact Option.noConfusion (show (Option.none : Option RWState) = some s' from h)
    | some s1 =>
      rw [hpre] at h
      have h1 : runFrom s1 (LockEvent.acqExcl w :: post) = some s' := h
      obtain ⟨hold, exc⟩ := s1
      cases exc with
      | some x =>
        exact Option.noConfusion (show (Option.none : Option RWState) = some s' from h1)
      | none =>
        by_cases hemp : hold.isEmpty
        · have hnil : hold = [] := by
            cases hold with
            | nil => rfl
            | cons a l => exact absurd hemp (by simp)
          subst hnil
          have hinv := runFrom_count pre rwInit ⟨[], none⟩ hpre t
          simpa [rwInit, natCount] using hinv.symm
        · have hnone : runFrom (RWState.mk hold none) (LockEvent.acqExcl w :: post) = none := by
            have hst : rwStep (RWState.mk hold none) (LockEvent.acqExcl w) = none := by
              have : (if hold.isEmpty then some (RWState.mk hold (some w))
                  else none) = rwStep (RWState.mk hold none) (LockEvent.acqExcl w) := rfl
              rw [← this, if_neg hemp]
            simp only [runFrom, hst]
          rw [hnone] at h1
          exact Option.noConfusion h1
  · show (if current ≠ value then (value, true) else (current, false)).1 = value
    by_cases hcv : current ≠ value
    · rw [if_pos hcv]
    · rw [if_neg hcv]
      exact not_not.mp hcv
  · show (if current ≠ value then (value, true) else (current, false)).2 = true ↔ current ≠ value
    by_cases hcv : current ≠ value
    · rw [if_pos hcv]
      simp [hcv]
    · rw [if_neg hcv]
      simp [hcv]

/-- Witness for C9: a concrete trace in which command thread 1
acquires and releases the shared lock, then writer thread 2 acquires
the exclusive lock; thread 1's acquisitions and releases balance. -/
theorem c9_set_read_only_drains_witness :
    countAcqShared 1 [LockEvent.acqShared 1, LockEvent.relShared 1]
      = countRelShared 1 [LockEvent.acqShared 1, LockEvent.relShared 1] :=
  (c9_set_read_only_drains [LockEvent.acqShared 1, LockEvent.relShared 1] [] 2
    ⟨[], some 2⟩ (by decide) true false).1 1
